import Mathlib

/-!
Verification of the STN_Core semantic core.

The Python sources are shallowly embedded as Lean definitions:

* Python `dict[str, V]` becomes an insertion-ordered association list
  `List (String × V)`; `dictSet` replicates CPython assignment semantics
  (an existing key is updated in place, a new key is appended), so keys
  stay pairwise distinct and `List.lookup` is exactly `dict.get`.
* Python `float` literals produced by the core's regex-guarded parses are
  modelled exactly as rationals (`ℚ`, built through `mkRat`); the core
  performs no arithmetic on numbers, so representation error of binary
  floating point is never observable here.
* In-place mutation of entities and the environment is modelled by value
  threading (each mutating function returns the updated value/state).
* Python code that can raise `IndexError` is embedded in an `Except`
  monad: every subscript appears as an `idx` call that faults exactly
  when CPython would, while the guards of the source stay separate
  boolean tests, so totality of evaluation is a theorem, not an artifact
  of the embedding.
* `\d` of the Python regexes is modelled as an ASCII digit and `int()` /
  `float()` on the lexer's atom strings as sign-and-digits parses; the
  exotic CPython forms (unicode digits, underscores, exponents) cannot
  reach the core from the lexer's atom categories.
-/

/-- CPython `s.startswith(c)` for a single-character prefix, over the
character list (the `String` substring primitives do not reduce in the
kernel). -/
def strHeadIs (s : String) (c : Char) : Bool :=
  s.data.head? = some c

/-- CPython `s.endswith(c)` for a single-character suffix, over the
character list (the `String` substring primitives do not reduce in the
kernel). -/
def strLastIs (s : String) (c : Char) : Bool :=
  s.data.getLast? = some c

/-- Update semantics of a CPython `dict` on an insertion-ordered
association list: replace the value of an existing key in place,
otherwise append the new binding at the end. -/
def dictSet {α : Type} : List (String × α) → String → α → List (String × α)
  | [], k, v => [(k, v)]
  | (k2, v2) :: rest, k, v =>
    if k2 = k then (k, v) :: rest else (k2, v2) :: dictSet rest k v

/-- Key list of an association list (CPython `dict` keys, insertion order). -/
def dictKeys {α : Type} (d : List (String × α)) : List String :=
  d.map Prod.fst

/-- ASCII decimal digit test, modelling `\d` of the source's regexes on
the atom strings the lexer produces. -/
def isDigitChar (c : Char) : Bool :=
  '0' ≤ c ∧ c ≤ '9'

/-- Value of a digit string (Horner form). -/
def digitsToNat (cs : List Char) : Nat :=
  cs.foldl (fun acc c => acc * 10 + (c.toNat - '0'.toNat)) 0

/-- The `-?` prefix of the numeric regexes: strip one leading minus,
reporting whether it was present. -/
def stripMinus : List Char → Bool × List Char
  | '-' :: rest => (true, rest)
  | other => (false, other)

/-- Matcher for the source's `_NUMBER_RE`, `^-?\d+(\.\d+)?$`:
optional leading minus, one or more digits, optionally a dot followed by
one or more digits. -/
def isNumberLit (s : String) : Bool :=
  let cs := (stripMinus s.data).2
  let intPart := cs.takeWhile (fun c => c ≠ '.')
  let rest := cs.dropWhile (fun c => c ≠ '.')
  (intPart ≠ [] && intPart.all isDigitChar) &&
    (match rest with
     | [] => true
     | '.' :: frac => frac ≠ [] && frac.all isDigitChar
     | _ => false)

/-- Matcher for the source's `_DATE_RE`, `^\d{4}-\d{2}-\d{2}$`. -/
def isDateLit (s : String) : Bool :=
  match s.data with
  | [a, b, c, d, h1, e, f, h2, g, h] =>
    [a, b, c, d, e, f, g, h].all isDigitChar && h1 = '-' && h2 = '-'
  | _ => false

/-- Exact value of a decimal literal string accepted by `isNumberLit`:
`float()` of CPython on such a string, modelled without representation
error.  The digits before and after the dot form the integer mantissa,
scaled by the power of ten of the fraction length. -/
def decimalToRat (s : String) : ℚ :=
  let neg := (stripMinus s.data).1
  let cs := (stripMinus s.data).2
  let intPart := cs.takeWhile (fun c => c ≠ '.')
  let fracPart := (cs.dropWhile (fun c => c ≠ '.')).drop 1
  let mag : Int := Int.ofNat (digitsToNat (intPart ++ fracPart))
  mkRat (if neg then -mag else mag) (10 ^ fracPart.length)

/-- Model of CPython `float(raw)` on the atom strings reaching
`_coerce`: an optional sign followed by digits with an optional
fractional part (at least one digit overall).  Returns `none` where
CPython raises `ValueError`. -/
def pyFloat? (s : String) : Option ℚ :=
  let (neg, cs) := match s.data with
    | '-' :: rest => (true, rest)
    | '+' :: rest => (false, rest)
    | other => (false, other)
  let intPart := cs.takeWhile (fun c => c ≠ '.')
  let rest := cs.dropWhile (fun c => c ≠ '.')
  let fracPart := rest.drop 1
  let shapeOk :=
    (intPart.all isDigitChar && fracPart.all isDigitChar) &&
      (intPart ≠ [] || fracPart ≠ []) &&
      (match rest with
       | [] => true
       | '.' :: _ => true
       | _ => false)
  if shapeOk then
    let mag : Int := Int.ofNat (digitsToNat (intPart ++ fracPart))
    some (mkRat (if neg then -mag else mag) (10 ^ fracPart.length))
  else none

/-- Model of CPython `int(raw)` on the accessor strings reaching
`apply_getter`: an optional sign followed by one or more digits.
Returns `none` where CPython raises `ValueError`. -/
def pyInt? (s : String) : Option Int :=
  let (neg, cs) := match s.data with
    | '-' :: rest => (true, rest)
    | '+' :: rest => (false, rest)
    | other => (false, other)
  if cs ≠ [] && cs.all isDigitChar then
    let mag : Int := Int.ofNat (digitsToNat cs)
    some (if neg then -mag else mag)
  else none

namespace model

/-- `model.PrimitiveKind` and `model.EnumKind`, fused into the union
`Kind = PrimitiveKind | EnumKind` of `model.py`. -/
inductive Kind where
  | Text
  | Number
  | Date
  | EnumKind (choices : List String)
  deriving DecidableEq, Repr

mutual
/-- The tagged value union of `model.py`. -/
inductive Value where
  | VText (value : String)
  | VNumber (value : ℚ)
  | VDate (value : String)
  | VEnum (value : String) (choices : List String)
  | VList (items : List Value)
  | VDict (entries : List (String × Value))
  | VRef (name : String)
  | VEntity (entity : Entity)
  | Empty

/-- `model.Entity`: a typed instance with schema fields and dynamic props. -/
inductive Entity where
  | mk (type_name : String) (fields : List (String × Value))
      (props : List (String × Value))
end

def Entity.type_name : Entity → String
  | .mk t _ _ => t

def Entity.fields : Entity → List (String × Value)
  | .mk _ f _ => f

def Entity.props : Entity → List (String × Value)
  | .mk _ _ p => p

/-- `isinstance(v, _EmptyType)` of the source. -/
def Value.isEmptyV : Value → Bool
  | .Empty => true
  | _ => false

/-- `model.TypeDef`, with `__post_init__` defaulting of `kinds` applied
by the `make` smart constructor below. -/
structure TypeDef where
  name : String
  params : List String
  kinds : List Kind

/-- Construction of a `model.TypeDef`: `__post_init__` replaces an empty
`kinds` list by all-Text, one per parameter. -/
def TypeDef.make (name : String) (params : List String) (kinds : List Kind) :
    TypeDef :=
  if kinds = [] then ⟨name, params, params.map (fun _ => Kind.Text)⟩
  else ⟨name, params, kinds⟩

end model

namespace chunk_utils

open model

/-- `chunk_utils.atom_to_value`: number literal, bracket literal (date or
text), else text.  The brackets are stripped; nothing is unescaped. -/
def atom_to_value (atom : String) : Value :=
  if isNumberLit atom then .VNumber (decimalToRat atom)
  else if strHeadIs atom '[' && strLastIs atom ']' then
    let inner := String.mk ((atom.data.drop 1).dropLast)
    if isDateLit inner then .VDate inner else .VText inner
  else .VText atom

/-- `chunk_utils._collapse`. -/
def collapse (values : List Value) : Value :=
  match values with
  | [] => .VText ""
  | [v] => v
  | vs => .VList vs

/-- Loop of `chunk_utils.normalize_implicit_dict` as a state machine over
the remaining atoms; `key`/`vals` are the `current_key`/`current_values`
variables, `entries` the accumulated dict. -/
def nid_go : List String → Option String → List Value →
    List (String × Value) → List (String × Value)
  | [], key, vals, entries =>
    match key with
    | some k => dictSet entries k (collapse vals)
    | none => entries
  | atom :: rest, key, vals, entries =>
    if atom = ":" then
      let entries2 := match key with
        | some k => dictSet entries k (collapse vals)
        | none => entries
      match rest with
      | next :: rest2 => nid_go rest2 (some next) [] entries2
      | [] => nid_go [] key [] entries2
    else if strHeadIs atom ':' && atom.length > 1 then
      let entries2 := match key with
        | some k => dictSet entries k (collapse vals)
        | none => entries
      nid_go rest (some (atom.drop 1)) [] entries2
    else nid_go rest key (vals ++ [atom_to_value atom]) entries

/-- `chunk_utils.normalize_implicit_dict`, returning the entry list of
the produced `VDict` (callers that need the value wrap it in
`Value.VDict`). -/
def normalize_implicit_dict (atoms : List String) : List (String × Value) :=
  nid_go atoms none [] []

end chunk_utils

namespace environment

open model

/-- `environment.Environment`: the three scope tables. -/
structure Environment where
  typedefs : List (String × TypeDef)
  globals_ : List (String × Value)
  locals_ : List (String × Value)

/-- The empty environment (`Environment()` in the source). -/
def Environment.init : Environment := ⟨[], [], []⟩

def register_typedef (env : Environment) (td : TypeDef) : Environment :=
  ⟨dictSet env.typedefs td.name td, env.globals_, env.locals_⟩

def resolve_typedef (env : Environment) (name : String) : Option TypeDef :=
  env.typedefs.lookup name

def set_global (env : Environment) (name : String) (value : Value) :
    Environment :=
  ⟨env.typedefs, dictSet env.globals_ name value, env.locals_⟩

def get_global (env : Environment) (name : String) : Value :=
  (env.globals_.lookup name).getD .Empty

def set_local (env : Environment) (name : String) (value : Value) :
    Environment :=
  ⟨env.typedefs, env.globals_, dictSet env.locals_ name value⟩

def get_local (env : Environment) (name : String) : Value :=
  (env.locals_.lookup name).getD .Empty

/-- `environment._coerce`. -/
def coerce (raw : String) (kind : Kind) : Value :=
  match kind with
  | .Number =>
    match pyFloat? raw with
    | some q => .VNumber q
    | none => .VText raw
  | .Date =>
    let text := if strHeadIs raw '[' && strLastIs raw ']' then
        String.mk ((raw.data.drop 1).dropLast)
      else raw
    .VDate text
  | .EnumKind choices =>
    let text := if strHeadIs raw '[' && strLastIs raw ']' then
        String.mk ((raw.data.drop 1).dropLast)
      else raw
    .VEnum text choices
  | .Text => chunk_utils.atom_to_value raw

end environment

namespace units

/-- `units.LeaderType`: the six sigil roles. -/
inductive LeaderType where
  | GlobalRef
  | LocalRef
  | Getter
  | Setter
  | Key
  | TypeCall
  deriving DecidableEq, Repr

/-- `units.Leader`. -/
structure Leader where
  kind : LeaderType
  deriving DecidableEq, Repr

/-- The lexer's tree node as consumed by `units.py` / `evaluator.py`:
a list of chunks (each a list of atom strings) and the nested
parenthesized group nodes in encounter order. -/
inductive Node where
  | mk (chunks : List (List String)) (children : List Node)

def Node.chunks : Node → List (List String)
  | .mk c _ => c

def Node.children : Node → List Node
  | .mk _ c => c

/-- `units.Unit`: a Leader with optional operand and optional child node. -/
structure Unit where
  leader : Leader
  operand : Option String
  child : Option Node

/-- `units.Statement`. -/
structure Statement where
  units : List Unit
  is_define : Bool

/-- `units._SIGIL_MAP`. -/
def sigil_map (a : String) : Option LeaderType :=
  if a = "#" then some .GlobalRef
  else if a = "@" then some .LocalRef
  else if a = "." then some .Getter
  else if a = "!" then some .Setter
  else if a = ":" then some .Key
  else if a = "%" then some .TypeCall
  else none

/-- `units._SIGILS`. -/
def sigils : List String := ["#", "@", ".", "!", ":", "%"]

/-- Statement-start classification of a chunk with index at least one:
a chunk beginning with `@` starts a statement, one beginning with `#`
starts a statement only when the previous chunk's last atom is not a
sigil, `%`/`:` chunks and empty chunks are continuations. -/
def is_stmt_start (prev chunk : List String) : Bool :=
  match chunk with
  | [] => false
  | first_atom :: _ =>
    if first_atom = "@" then true
    else if first_atom = "#" then
      match prev.getLast? with
      | some last => decide (last ∉ sigils)
      | none => false
    else false

/-- Indices of the chunks that start a statement (the statement-boundary
scan of `parse_chunks_to_statements`); chunk 0 always starts one. -/
def stmt_start_chunks (chunks : List (List String)) : List Nat :=
  match chunks with
  | [] => []
  | _ :: _ =>
    0 :: (chunks.zip chunks.tail).enum.filterMap
      (fun p => if is_stmt_start p.2.1 p.2.2 then some (p.1 + 1) else none)

/-- Contiguous half-open index ranges between consecutive statement
starts, the last range closed by the total chunk count. -/
def group_ranges (starts : List Nat) (total : Nat) : List (Nat × Nat) :=
  match starts with
  | [] => []
  | s :: rest => (s, (rest.head?).getD total) :: group_ranges rest total

/-- Test whether the next atom (if any) is itself a sigil, so that the
current sigil's unit takes no operand. -/
def sigil_follows : Option String → Bool
  | some b => (sigil_map b).isSome
  | none => false

/-- Child-consumption decision of the unit loop: TypeCall and Setter
units with an operand always consume, a GlobalRef/LocalRef unit consumes
only as the first unit of a definition statement with no sigil
immediately following; `peek` is the atom after the operand. -/
def unit_consumes (lk : LeaderType) (op : String) (peek : Option String)
    (is_define : Bool) (units : List units.Unit) : Bool :=
  if op = "+" then false
  else if lk = .TypeCall ∨ lk = .Setter then true
  else if (lk = .LocalRef ∨ lk = .GlobalRef) ∧ is_define ∧ units.isEmpty then
    match peek with
    | some nxt => sigil_map nxt = none
    | none => true
  else false

/-- Take the next available child node, advancing the cursor, or leave
the unit childless when the cursor is exhausted. -/
def take_child (children : List Node) (ci : Nat) : Option Node × Nat :=
  match children.get? ci with
  | some c => (some c, ci + 1)
  | none => (none, ci)

/-- Loop of `units._parse_atoms_to_statement`: walk the atoms, opening a
new Unit at each sigil, consuming the following non-sigil atom as the
operand, and consuming the next available child node according to the
consumption rules; `ci` is the shared child cursor. -/
def pas_go (l : List String) (children : List Node) (ci : Nat)
    (is_define : Bool) (units : List units.Unit) : List Unit × Nat :=
  match l with
  | [] => (units, ci)
  | atom :: rest =>
    match sigil_map atom with
    | none => pas_go rest children ci is_define units
    | some lk =>
      if sigil_follows rest.head? then
        pas_go rest children ci is_define (units ++ [⟨⟨lk⟩, none, none⟩])
      else
        match rest with
        | [] => (units ++ [⟨⟨lk⟩, none, none⟩], ci)
        | b :: r2 =>
          if lk = .Setter ∧ b = "+" then
            let (child, ci2) := take_child children ci
            pas_go r2 children ci2 is_define
              (units ++ [⟨⟨.Setter⟩, some "+", child⟩])
          else
            let (child, ci2) :=
              if unit_consumes lk b r2.head? is_define units then
                take_child children ci
              else (none, ci)
            pas_go r2 children ci2 is_define
              (units ++ [⟨⟨lk⟩, some b, child⟩])
termination_by structural l

/-- `units._parse_atoms_to_statement`: meta-leader handling, the unit
loop, and revocation of a definition candidate that consumed no child. -/
def parse_atoms_to_statement (atoms : List String) (children : List Node)
    (child_idx : Nat) : Statement × Nat :=
  let (is_define, local_def_candidate, start) :=
    match atoms with
    | "@" :: a1 :: rest =>
      if a1 = "#" ∨ a1 = "%" ∨ a1 = "@" then (true, false, a1 :: rest)
      else (true, true, atoms)
    | "@" :: [] => (true, true, atoms)
    | _ => (false, false, atoms)
  let (units, ci2) := pas_go start children child_idx is_define []
  let is_define2 :=
    if local_def_candidate then
      match units.head? with
      | some u => if u.child.isNone then false else is_define
      | none => is_define
    else is_define
  (⟨units, is_define2⟩, ci2)

/-- `units.parse_chunks_to_statements`: flatten chunk groups between
statement starts and parse each group, threading the child cursor. -/
def parse_chunks_to_statements (node : Node) : List Statement :=
  let starts := stmt_start_chunks node.chunks
  let ranges := group_ranges starts node.chunks.length
  (ranges.foldl
    (fun (acc : List Statement × Nat) r =>
      let atoms := ((node.chunks.drop r.1).take (r.2 - r.1)).flatten
      let (stmt, ci) := parse_atoms_to_statement atoms node.children acc.2
      (acc.1 ++ [stmt], ci))
    ([], 0)).1

end units

namespace evaluator

open model units environment

/-- Result monad of the embedding: `Except.error` marks exactly the
points where the Python source would raise an exception. -/
abbrev M (α : Type) : Type := Except String α

/-- A Python subscript `xs[i]`: faults (as CPython raises `IndexError`)
when the index is out of range. -/
def idx {α : Type} (xs : List α) (i : Nat) : M α :=
  match xs.get? i with
  | some x => Except.ok x
  | none => Except.error "IndexError"

/-- `environment.Environment.create_entity`: positional instantiation.
Unknown schema keeps every argument under synthetic names; a known
schema binds members positionally, missing arguments become Empty,
surplus arguments are ignored by the loop bound. -/
def create_entity (env : Environment) (type_name : String)
    (args : List String) : M Entity :=
  match resolve_typedef env type_name with
  | none =>
    pure (.mk type_name
      (args.enum.map (fun p => ("_" ++ toString p.1, chunk_utils.atom_to_value p.2)))
      [])
  | some td => do
    let fields ← td.params.enum.foldlM
      (fun (fields : List (String × Value)) p => do
        let i := p.1
        let param := p.2
        if i < args.length then do
          let kind ← if i < td.kinds.length then idx td.kinds i
            else pure Kind.Text
          let a ← idx args i
          pure (dictSet fields param (coerce a kind))
        else
          pure (dictSet fields param .Empty))
      []
    pure (.mk type_name fields [])

/-- `environment.Environment.create_entity_keyed`: keyword
instantiation. -/
def create_entity_keyed (env : Environment) (type_name : String)
    (kwargs : List (String × String)) : M Entity :=
  match resolve_typedef env type_name with
  | none =>
    pure (.mk type_name
      (kwargs.foldl (fun fs p => dictSet fs p.1 (chunk_utils.atom_to_value p.2)) [])
      [])
  | some td => do
    let fields ← td.params.enum.foldlM
      (fun (fields : List (String × Value)) p => do
        let i := p.1
        let param := p.2
        match kwargs.lookup param with
        | some raw => do
          let kind ← if i < td.kinds.length then idx td.kinds i
            else pure Kind.Text
          pure (dictSet fields param (coerce raw kind))
        | none =>
          pure (dictSet fields param .Empty))
      []
    pure (.mk type_name fields [])

/-- Keyed-parameter scan of `evaluator._parse_keyed_params_with_kinds`
as a single-pass state machine: `mode` holds the parameter currently
collecting its kind annotation; `Kind.Text` is the per-parameter
default; the `%`+tag and `%s`-enum shapes follow the source's inner
loop, consuming a child node for enum choices. -/
def pk_tag_next : Option String → Bool
  | some b => b ≠ ":" && b ≠ "%"
  | none => false

/-- Appending of the pending parameter and its collected kind, performed
when the annotation scan reaches a `:` or the end of the atoms
(`params.append` at key detection plus `kinds.append` at inner-loop exit
in the source). -/
def pk_flush (mode : Option (String × Kind)) (params : List String)
    (kinds : List Kind) : List String × List Kind :=
  match mode with
  | some pk => (params ++ [pk.1], kinds ++ [pk.2])
  | none => (params, kinds)

def pk_go (l : List String) (children : List Node) (ci : Nat)
    (mode : Option (String × Kind)) (params : List String)
    (kinds : List Kind) : M (List String × List Kind × Nat) :=
  match l with
  | [] => pure ((pk_flush mode params kinds).1, (pk_flush mode params kinds).2, ci)
  | atom :: rest =>
    if atom = ":" then
      match rest with
      | [] => pure ((pk_flush mode params kinds).1, (pk_flush mode params kinds).2, ci)
      | b :: r2 =>
        pk_go r2 children ci (some (b, Kind.Text))
          (pk_flush mode params kinds).1 (pk_flush mode params kinds).2
    else if atom = "%" then
      match mode with
      | some pk =>
        if pk_tag_next rest.head? then
          match rest with
          | [] => pure (params ++ [pk.1], kinds ++ [Kind.Number], ci)
          | b :: r2 =>
            if b = "s" ∨ b = "S" then
              if ci < children.length then do
                let c ← idx children ci
                if c.chunks ≠ [] then do
                  let cs0 ← idx c.chunks 0
                  pk_go r2 children (ci + 1) (some (pk.1, Kind.EnumKind cs0))
                    params kinds
                else
                  pk_go r2 children ci (some (pk.1, Kind.EnumKind []))
                    params kinds
              else
                pk_go r2 children ci (some (pk.1, Kind.EnumKind []))
                  params kinds
            else
              pk_go r2 children ci mode params kinds
        else
          pk_go rest children ci (some (pk.1, Kind.Number)) params kinds
      | none => pk_go rest children ci mode params kinds
    else
      pk_go rest children ci mode params kinds
termination_by structural l

/-- `evaluator._parse_keyed_params_with_kinds`. -/
def parse_keyed_params_with_kinds (atoms : List String)
    (children : List Node) : M (List String × List Kind) := do
  let r ← pk_go atoms children 0 none [] []
  pure (r.1, r.2.1)

/-- `evaluator._register_typedef`: register a TypeDef from an
`@%Name (...)` unit. -/
def register_typedef_stmt (env : Environment) (unit : units.Unit) :
    M Environment :=
  match unit.operand with
  | none => pure env
  | some name =>
    match unit.child with
    | none => pure (register_typedef env (TypeDef.make name [] []))
    | some child =>
      if child.chunks = [] then
        pure (register_typedef env (TypeDef.make name [] []))
      else
        let all_atoms := child.chunks.flatten
        if ":" ∈ all_atoms then do
          let pk ← parse_keyed_params_with_kinds all_atoms child.children
          pure (register_typedef env (TypeDef.make name pk.1 pk.2))
        else
          pure (register_typedef env (TypeDef.make name all_atoms []))

/-- `evaluator._register_definition` (pass 1). -/
def register_definition (env : Environment) (stmt : Statement) :
    M Environment :=
  match stmt.units with
  | [] => pure env
  | first :: _ =>
    if first.leader.kind = .TypeCall then register_typedef_stmt env first
    else pure env

/-- Key-value scan of `evaluator._extract_keyed_args` as a single-pass
state machine; values of a key are joined by spaces when more than one
atom accumulates, the empty string marks a key with no value. -/
def eka_flush (mode : Option (String × List String))
    (result : List (String × String)) : List (String × String) :=
  match mode with
  | none => result
  | some kv =>
    match kv.2 with
    | [] => dictSet result kv.1 ""
    | [v] => dictSet result kv.1 v
    | vs => dictSet result kv.1 (String.intercalate " " vs)

def eka_go (l : List String) (mode : Option (String × List String))
    (result : List (String × String)) : List (String × String) :=
  match l with
  | [] => eka_flush mode result
  | atom :: rest =>
    if atom = ":" then
      match rest with
      | [] => eka_flush mode result
      | b :: r2 => eka_go r2 (some (b, [])) (eka_flush mode result)
    else
      match mode with
      | some kv => eka_go rest (some (kv.1, kv.2 ++ [atom])) result
      | none => eka_go rest none result
termination_by structural l

/-- `evaluator._extract_keyed_args`. -/
def extract_keyed_args (atoms : List String) : List (String × String) :=
  eka_go atoms none []

/-- `evaluator._eval_type_call`: instantiate `%Type(args...)`. -/
def eval_type_call (env : Environment) (unit : units.Unit) : M Value :=
  match unit.operand with
  | none => pure .Empty
  | some type_name =>
    match unit.child with
    | none => do
      let e ← create_entity env type_name []
      pure (.VEntity e)
    | some child =>
      if child.chunks = [] then do
        let e ← create_entity env type_name []
        pure (.VEntity e)
      else
        let all_atoms := child.chunks.flatten
        if ":" ∈ all_atoms then do
          let kwargs := extract_keyed_args all_atoms
          let e ← create_entity_keyed env type_name kwargs
          pure (.VEntity e)
        else do
          let e ← create_entity env type_name all_atoms
          pure (.VEntity e)

/-- `evaluator._apply_getter`: fields, then props, then Empty (also a
dict lookup for `VDict`); no numeric fallback in this path. -/
def apply_getter (base : Value) (field_name : Option String) : Value :=
  match field_name with
  | none => .Empty
  | some fn =>
    match base with
    | .VEntity e =>
      match e.fields.lookup fn with
      | some v => v
      | none =>
        match e.props.lookup fn with
        | some v => v
        | none => .Empty
    | .VDict entries => (entries.lookup fn).getD .Empty
    | _ => .Empty

/-- `evaluator._set_field_or_prop`: overwrite an existing field, else an
existing prop, else create a new prop. -/
def set_field_or_prop (entity : Entity) (key : String) (value : Value) :
    Entity :=
  match entity with
  | .mk tn fields props =>
    if key ∈ dictKeys fields then .mk tn (dictSet fields key value) props
    else if key ∈ dictKeys props then .mk tn fields (dictSet props key value)
    else .mk tn fields (dictSet props key value)

/-- `evaluator._child_to_value`: extract a Value from a child node. -/
def child_to_value (env : Environment) (child : Option Node) : M Value :=
  match child with
  | none => pure .Empty
  | some c =>
    if c.chunks = [] then pure .Empty
    else
      let chunks := c.chunks
      if chunks.length > 1 ∧ chunks.any (fun ch => ch.head? = some ":") then
        pure (.VDict (chunk_utils.normalize_implicit_dict chunks.flatten))
      else do
        let first_chunk ← idx chunks 0
        if first_chunk = [] then pure .Empty
        else if first_chunk.head? = some ":" then
          pure (.VDict (chunk_utils.normalize_implicit_dict chunks.flatten))
        else if first_chunk.length ≥ 2 ∧
            (first_chunk.head? = some "#" ∨ first_chunk.head? = some "@") then do
          let sigil ← idx first_chunk 0
          let ref_name ← idx first_chunk 1
          let val := if sigil = "#" then get_global env ref_name
            else get_local env ref_name
          if val.isEmptyV then pure (.VRef ref_name) else pure val
        else if first_chunk.length = 1 then do
          let a ← idx first_chunk 0
          pure (chunk_utils.atom_to_value a)
        else
          pure (.VList (first_chunk.map chunk_utils.atom_to_value))

/-- Positional pair loop of `evaluator._apply_batch_setter`:
`(key1 val1 key2 val2 ...)` consumed two atoms at a time. -/
def batch_pairs (atoms : List String) (entity : Entity) : Entity :=
  match atoms with
  | k :: v :: rest =>
    batch_pairs rest (set_field_or_prop entity k (chunk_utils.atom_to_value v))
  | _ => entity

/-- `evaluator._apply_batch_setter`: `!+(...)` batch property setting in
keyed or positional form. -/
def apply_batch_setter (entity : Entity) (unit : units.Unit) : M Entity :=
  match unit.child with
  | none => pure entity
  | some child =>
    if child.chunks = [] then pure entity
    else
      let chunks := child.chunks
      let has_key_sigils := chunks.any (fun ch => ch.head? = some ":")
      if has_key_sigils then
        let entries := chunk_utils.normalize_implicit_dict chunks.flatten
        pure (entries.foldl (fun e p => set_field_or_prop e p.1 p.2) entity)
      else do
        let atoms0 ← idx chunks 0
        pure (batch_pairs atoms0 entity)

/-- `evaluator._apply_setter`: single setter or batch setter on an
entity value; other values pass through unchanged. -/
def apply_setter (env : Environment) (base : Value) (unit : units.Unit) :
    M Value :=
  match base with
  | .VEntity entity =>
    if unit.operand = some "+" then do
      let e2 ← apply_batch_setter entity unit
      pure (.VEntity e2)
    else
      match unit.operand with
      | none => pure base
      | some field_name => do
        let v ← child_to_value env unit.child
        pure (.VEntity (set_field_or_prop entity field_name v))
  | _ => pure base

/-- `evaluator._eval_single_unit`: the base value of a unit chain. -/
def eval_single_unit (env : Environment) (unit : units.Unit) : M Value :=
  match unit.leader.kind with
  | .GlobalRef =>
    match unit.operand with
    | none => pure .Empty
    | some n => pure (get_global env n)
  | .LocalRef =>
    match unit.operand with
    | none => pure .Empty
    | some n => pure (get_local env n)
  | .TypeCall => eval_type_call env unit
  | .Key => pure (.VText (unit.operand.getD ""))
  | _ => pure .Empty

/-- `evaluator._apply_unit`: transform the base value by one unit. -/
def apply_unit (env : Environment) (base : Value) (unit : units.Unit) : M Value :=
  match unit.leader.kind with
  | .Getter => pure (apply_getter base unit.operand)
  | .Setter => apply_setter env base unit
  | .TypeCall => eval_type_call env unit
  | _ => pure base

/-- `evaluator._eval_unit_chain`. -/
def eval_unit_chain (env : Environment) (units : List units.Unit) (start : Nat) :
    M Value :=
  if start ≥ units.length then pure .Empty
  else do
    let first ← idx units start
    let base ← eval_single_unit env first
    (units.drop (start + 1)).foldlM (fun b u => apply_unit env b u) base

/-- `evaluator._eval_statement` (non-definition): `None` only for a
statement with no units. -/
def eval_statement (env : Environment) (stmt : Statement) :
    M (Option Value) :=
  if stmt.units.isEmpty then pure none
  else do
    let v ← eval_unit_chain env stmt.units 0
    pure (some v)

/-- `evaluator._eval_global_def`. -/
def eval_global_def (env : Environment) (stmt : Statement) :
    M Environment := do
  let first ← idx stmt.units 0
  match first.operand with
  | none => pure env
  | some var_name => do
    let v ← if stmt.units.length > 1 then eval_unit_chain env stmt.units 1
      else match first.child with
        | some _ => child_to_value env first.child
        | none => pure .Empty
    pure (set_global env var_name v)

/-- `evaluator._eval_local_def` (note: child takes precedence over the
remaining units here, the opposite order of the global case). -/
def eval_local_def (env : Environment) (stmt : Statement) :
    M Environment := do
  let first ← idx stmt.units 0
  match first.operand with
  | none => pure env
  | some var_name => do
    let v ← match first.child with
      | some _ => child_to_value env first.child
      | none =>
        if stmt.units.length > 1 then eval_unit_chain env stmt.units 1
        else pure .Empty
    pure (set_local env var_name v)

/-- `evaluator._eval_definition` (pass 2; contributes no result). -/
def eval_definition (env : Environment) (stmt : Statement) :
    M Environment :=
  match stmt.units with
  | [] => pure env
  | first :: _ =>
    match first.leader.kind with
    | .TypeCall => pure env
    | .GlobalRef => eval_global_def env stmt
    | .LocalRef => eval_local_def env stmt
    | _ => pure env

/-- Pass 1 of `evaluator.evaluate`: register definitions. -/
def pass1 (stmts : List Statement) (env : Environment) : M Environment :=
  stmts.foldlM
    (fun env stmt =>
      if stmt.is_define then register_definition env stmt else pure env)
    env

/-- Pass 2 of `evaluator.evaluate`: evaluate all statements, collecting
expression results. -/
def pass2 (stmts : List Statement) (env : Environment) :
    M (Environment × List Value) :=
  stmts.foldlM
    (fun (acc : Environment × List Value) stmt =>
      if stmt.is_define then do
        let env2 ← eval_definition acc.1 stmt
        pure (env2, acc.2)
      else do
        let v ← eval_statement acc.1 stmt
        match v with
        | some val => pure (acc.1, acc.2 ++ [val])
        | none => pure acc)
    (env, [])

end evaluator

namespace document

open model units environment evaluator

/-- `document.Document`: environment, cumulative results, and the last
result of the most recent merge (`None` directly after `evaluate`). -/
structure Document where
  environment : Environment
  results : List Value
  last_result : Option Value

/-- A fresh `Document()` (empty tables, no results). -/
def Document.init : Document := ⟨Environment.init, [], none⟩

end document

namespace evaluator

open model units environment document

/-- `evaluator.evaluate`: two passes over the reconstructed statements
of a lexer tree, producing a Document. -/
def evaluate (root : Node) : M Document :=
  let stmts := parse_chunks_to_statements root
  do
    let env ← pass1 stmts Environment.init
    let er ← pass2 stmts env
    pure ⟨er.1, er.2, none⟩

end evaluator

namespace document

open model units environment evaluator

/-- Modelled from the spec: `evaluator._evaluate_into`, called by
`Document.merge` but absent from the sources (only its caller and tests
survive).  Per §4.5 it parses one new fragment and merges its effect
into the same Environment: the evaluator's two passes run against the
existing tables (definitions overwrite prior entries of the same name),
and the fragment's expression results are returned in order. -/
def evaluate_into (env : Environment) (root : Node) :
    M (Environment × List Value) :=
  let stmts := parse_chunks_to_statements root
  do
    let env2 ← pass1 stmts env
    pass2 stmts env2

/-- `document.Document.merge`: evaluate a fragment into the Document's
environment, append its results, and record the last result of this
merge (or `none` when the fragment appended nothing). -/
def merge (doc : Document) (root : Node) : M Document := do
  let er ← evaluate_into doc.environment root
  pure ⟨er.1, doc.results ++ er.2, er.2.getLast?⟩

end document

namespace repl

open document

/-- `repl.STNRepl.reset`: the REPL replaces its Document with a fresh
empty one. -/
def reset (_doc : Document) : Document := Document.init

end repl

/-- `typedef.MemberDef`: a typed member slot of a gen-B schema. -/
structure typedef.MemberDef where
  name : String
  kind : String
  choices : List String
  multi : Bool
  deriving DecidableEq, Repr

mutual
/-- The tagged value union of `values.py` (the reader-layer family):
its `VEntity` carries an optional TypeDef, an optional type name echo,
fields, props, and the reserved mapping inherited from the schema. -/
inductive values.Value where
  | VText (value : String)
  | VNumber (value : ℚ)
  | VDate (value : String)
  | VBool (value : Bool)
  | VEnum (value : String) (choices : List String)
  | VList (items : List values.Value)
  | VEntity (td : Option typedef.TypeDef) (type_name : Option String)
      (fields : List (String × values.Value))
      (props : List (String × values.Value))
      (reserved : List (String × values.Value))
  | Empty

/-- `typedef.TypeDef`: a named gen-B schema with ordered members and a
reserved-metadata mapping. -/
inductive typedef.TypeDef where
  | mk (name : String) (members : List typedef.MemberDef)
      (reserved : List (String × values.Value))
end

def typedef.TypeDef.name : typedef.TypeDef → String
  | .mk n _ _ => n

def typedef.TypeDef.members : typedef.TypeDef → List typedef.MemberDef
  | .mk _ m _ => m

def typedef.TypeDef.reserved : typedef.TypeDef → List (String × values.Value)
  | .mk _ _ r => r

/-- The reserved mapping of a gen-B entity value (empty for any other
value tag). -/
def values.Value.reservedOf : values.Value → List (String × values.Value)
  | .VEntity _ _ _ _ r => r
  | _ => []

/-- The props mapping of a gen-B entity value. -/
def values.Value.propsOf : values.Value → List (String × values.Value)
  | .VEntity _ _ _ p _ => p

  | _ => []

/-- The fields mapping of a gen-B entity value. -/
def values.Value.fieldsOf : values.Value → List (String × values.Value)
  | .VEntity _ _ f _ _ => f
  | _ => []

mutual
/-- `sobject.SObject`: the reader's intermediate dict-or-list record. -/
inductive sobject.SObject where
  | mk (entries : List sobject.SEntry)

/-- `sobject.SEntry`: a possibly-named entry of an S-object. -/
inductive sobject.SEntry where
  | mk (key : Option String) (value : sobject.SValue)

/-- `sobject.SValue`: a raw string or a nested S-object (the declared
`list[SObject]` alternative of the union is never constructed by the
reader and is omitted). -/
inductive sobject.SValue where
  | s (v : String)
  | obj (o : sobject.SObject)
end

namespace reader

/-- The token categories of the external tokenizer used by the reader
layer (`TokenType.SIGIL` / `ATOM` / `NUMBER`). -/
inductive TokenType where
  | SIGIL
  | ATOM
  | NUMBER
  deriving DecidableEq, Repr

/-- A token of the external lexer, with the two gluing flags. -/
structure Token where
  type : TokenType
  value : String
  word_head : Bool
  word_tail : Bool
  deriving DecidableEq, Repr

/-- The lexer node as consumed by the reader layer (`stn.nodes.Node`
seen through `node.items`): an ordered mix of tokens and nested nodes. -/
inductive RNode where
  | mk (items : List (Token ⊕ RNode))

def RNode.items : RNode → List (Token ⊕ RNode)
  | .mk xs => xs

/-- CPython `str.replace("\\]", "]")`: left-to-right, non-overlapping
replacement of every escaped closing bracket. -/
def unescapeCloseBracket : List Char → List Char
  | [] => []
  | '\\' :: ']' :: rest => ']' :: unescapeCloseBracket rest
  | c :: rest => c :: unescapeCloseBracket rest
termination_by structural l => l

/-- `reader.unwrap_literal`: strip `[...]` brackets and unescape
escaped closing brackets. -/
def unwrap_literal (atom : String) : String :=
  if strHeadIs atom '[' && strLastIs atom ']' then
    String.mk (unescapeCloseBracket ((atom.data.drop 1).dropLast))
  else atom

/-- `reader.atom_to_value`: classify an already-unwrapped string
(number, date, else text).  Unlike `chunk_utils.atom_to_value` it does
no bracket stripping of its own. -/
def atom_to_value (s : String) : values.Value :=
  if isNumberLit s then .VNumber (decimalToRat s)
  else if isDateLit s then .VDate s
  else .VText s

/-- `reader._is_colon_key` on two consecutive items: a `:` sigil glued
on the right, immediately followed by a glued atom/number token. -/
def is_colon_key2 (x y : Token ⊕ RNode) : Bool :=
  match x with
  | .inl t =>
    t.type = .SIGIL && t.value = ":" && t.word_head && !t.word_tail &&
      (match y with
       | .inl nt => (nt.type = .ATOM || nt.type = .NUMBER) && !nt.word_head
       | .inr _ => false)
  | .inr _ => false

/-- `reader._is_colon_key` at the head of the remaining item list. -/
def is_colon_key_at : List (Token ⊕ RNode) → Bool
  | x :: y :: _ => is_colon_key2 x y
  | _ => false

/-- `reader._is_colon_key` with the lookahead item passed explicitly. -/
def is_colon_key_opt (x : Token ⊕ RNode) : Option (Token ⊕ RNode) → Bool
  | some y => is_colon_key2 x y
  | none => false

mutual
/-- `reader._node_to_sobject`: recursively parse a nested node. -/
def node_to_sobject : RNode → sobject.SObject
  | .mk items => .mk (pct_go items none)

/-- Loop of `reader.parse_chunk_tokens` as a single-pass state machine:
`mode` carries the key currently collecting its value items (already
converted through `reader._item_to_svalue`, inlined here so the mutual
recursion runs on the node structure); everything outside a `:key`
group becomes an unnamed entry. -/
def pct_go : List (Token ⊕ RNode) → Option (String × List sobject.SValue) →
    List sobject.SEntry
  | [], mode => pct_flush mode []
  | x :: rest, mode =>
    if is_colon_key_opt x rest.head? then
      match rest with
      | .inl keyTok :: r2 => pct_flush mode (pct_go r2 (some (keyTok.value, [])))
      | _ => pct_flush mode []
    else
      let sval := match x with
        | .inl t => sobject.SValue.s (unwrap_literal t.value)
        | .inr n => sobject.SValue.obj (node_to_sobject n)
      match mode with
      | some kv => pct_go rest (some (kv.1, kv.2 ++ [sval]))
      | none => .mk none sval :: pct_go rest none

/-- Entry construction at the end of a `:key` group: no value gives the
empty string, one value is kept as is, several become an unnamed-entry
sub-object. -/
def pct_flush (mode : Option (String × List sobject.SValue))
    (rest : List sobject.SEntry) : List sobject.SEntry :=
  match mode with
  | none => rest
  | some kv =>
    match kv.2 with
    | [] => .mk (some kv.1) (.s "") :: rest
    | [v] => .mk (some kv.1) v :: rest
    | vs => .mk (some kv.1) (.obj (.mk (vs.map (fun v => sobject.SEntry.mk none v)))) :: rest
end

/-- `reader.parse_chunk_tokens`. -/
def parse_chunk_tokens (items : List (Token ⊕ RNode)) :
    List sobject.SEntry :=
  pct_go items none

end reader

namespace getter

open values

/-- `getter.apply_getter`: fields, then props, then 1-based numeric
index into the field values for entities; 1-based numeric index for
lists; Empty for everything else. -/
def apply_getter (value : Value) (accessor : String) : Value :=
  match value with
  | .Empty => .Empty
  | .VEntity _ _ fields props _ =>
    match fields.lookup accessor with
    | some v => v
    | none =>
      match props.lookup accessor with
      | some v => v
      | none =>
        match pyInt? accessor with
        | some k =>
          let field_values := fields.map Prod.snd
          let i := k - 1
          if 0 ≤ i ∧ i < (field_values.length : Int) then
            (field_values.get? i.toNat).getD .Empty
          else .Empty
        | none => .Empty
  | .VList items =>
    match pyInt? accessor with
    | some k =>
      let i := k - 1
      if 0 ≤ i ∧ i < (items.length : Int) then
        (items.get? i.toNat).getD .Empty
      else .Empty
    | none => .Empty
  | _ => .Empty

end getter

namespace setter

open values reader sobject

/-- `setter.apply_setter`: parse the argument node and, when the first
entry is a plain string, write it (converted) into the entity's props
under the given field name — the fields table is never consulted. -/
def apply_setter (value : Value) (field_name : String) (args_node : RNode) :
    Value :=
  match value with
  | .Empty => .Empty
  | .VEntity td tn fields props reserved =>
    match parse_chunk_tokens args_node.items with
    | [] => .VEntity td tn fields props reserved
    | entry :: _ =>
      match entry with
      | .mk _ (.s s) =>
        .VEntity td tn fields (dictSet props field_name (atom_to_value s))
          reserved
      | _ => .VEntity td tn fields props reserved
  | other => other

/-- `setter.apply_batch_setter`: every keyed string entry of the
argument node is written into the entity's props. -/
def apply_batch_setter (value : Value) (args_node : RNode) : Value :=
  match value with
  | .Empty => .Empty
  | .VEntity td tn fields props reserved =>
    let entries := parse_chunk_tokens args_node.items
    .VEntity td tn fields
      (entries.foldl
        (fun ps e =>
          match e with
          | .mk (some k) (.s s) => dictSet ps k (atom_to_value s)
          | _ => ps)
        props)
      reserved
  | other => other

end setter

namespace stnspec

open values typedef

/-- Modelled from the spec: construction of a schema-typed entity from
keyed instance arguments, the part of the evaluator that handles
reserved metadata; it is exercised by `tests/test_reserved.py` but the
implementing evaluator is not among the sources.  Per §4.3.2 and the §3
invariant, every keyed argument becomes a field except the reserved key
`__`, which is parsed but discarded, and the entity's reserved mapping
is copied verbatim from its TypeDef before any instance-argument
processing. -/
def create_entity_keyed_reserved (td : TypeDef)
    (kwargs : List (String × values.Value)) : values.Value :=
  let fields := kwargs.foldl
    (fun fs kv => if kv.1 = "__" then fs else dictSet fs kv.1 kv.2) []
  .VEntity (some td) (some td.name) fields [] td.reserved

end stnspec

namespace chunk_utils

open model

/-- Value of a numeric literal as the specification describes it: the
sign applied to the integer part plus the fraction digits scaled by ten
to the number of fraction digits (written with field arithmetic, to be
compared against the `mkRat` form the embedding of `float()` uses). -/
def specDecimalVal (s : String) : ℚ :=
  let neg := (stripMinus s.data).1
  let cs := (stripMinus s.data).2
  let intPart := cs.takeWhile (fun c => c ≠ '.')
  let fracPart := (cs.dropWhile (fun c => c ≠ '.')).drop 1
  let mag : ℚ :=
    (digitsToNat intPart : ℚ) + (digitsToNat fracPart : ℚ) / 10 ^ fracPart.length
  if neg then -mag else mag

/-- The classification of `atomToValue` as the amended specification
sentence describes it: a string matching the numeric-literal pattern
becomes a Number with the exact parsed magnitude; a bracket-delimited
literal has its brackets stripped (without unescaping) and the inner
text is classified as Date when it matches `YYYY-MM-DD` and Text
otherwise; every other string becomes Text. -/
def atomValueDescribed (s : String) : Value :=
  if isNumberLit s then .VNumber (specDecimalVal s)
  else if strHeadIs s '[' && strLastIs s ']' then
    let inner := String.mk ((s.data.drop 1).dropLast)
    if isDateLit inner then .VDate inner else .VText inner
  else .VText s

end chunk_utils

namespace units

/-- The nested-group nodes attached to a unit list, in unit order. -/
def unitChildren (us : List Unit) : List Node :=
  us.filterMap (fun u => u.child)

/-- The nested-group nodes attached to a statement list, in statement
and unit order. -/
def stmtsChildren (ss : List Statement) : List Node :=
  unitChildren (ss.flatMap Statement.units)

end units

/-- The per-member step of `create_entity`'s field loop. -/
def ce_step (td : model.TypeDef) (args : List String)
    (fields : List (String × model.Value)) (p : Nat × String) :
    evaluator.M (List (String × model.Value)) :=
  if p.1 < args.length then do
    let kind ← if p.1 < td.kinds.length then evaluator.idx td.kinds p.1
      else pure model.Kind.Text
    let a ← evaluator.idx args p.1
    pure (dictSet fields p.2 (environment.coerce a kind))
  else
    pure (dictSet fields p.2 model.Value.Empty)

/-- Concrete schema used to exercise `create_entity` at a surplus call. -/
def c10_td : model.TypeDef :=
  ⟨"Rect", ["x", "y"], [model.Kind.Number, model.Kind.Number]⟩

/-- Environment with the `Rect` schema registered. -/
def c10_env : environment.Environment := ⟨[("Rect", c10_td)], [], []⟩

namespace evaluator

def okM {α : Type} (x : M α) : Prop := ∃ a, x = Except.ok a

theorem okM_pure {α : Type} (a : α) : okM (pure a : M α) := ⟨a, rfl⟩

theorem okM_bind {α β : Type} {x : M α} {f : α → M β} (hx : okM x)
    (hf : ∀ a, okM (f a)) : okM (x >>= f) := by
  obtain ⟨a, ha⟩ := hx
  rw [ha]
  exact hf a

theorem okM_idx {α : Type} {xs : List α} {i : Nat} (h : i < xs.length) :
    okM (idx xs i) := by
  rw [idx, List.get?_eq_get h]
  exact ⟨_, rfl⟩

theorem okM_foldlM {σ α : Type} (f : σ → α → M σ)
    (hf : ∀ s a, okM (f s a)) :
    ∀ (l : List α) (s : σ), okM (List.foldlM f s l) := by
  intro l
  induction l with
  | nil => intro s; exact okM_pure s
  | cons x xs ih =>
    intro s
    rw [List.foldlM_cons]
    exact okM_bind (hf s x) (fun s2 => ih s2)

theorem pk_go_okAux (n : Nat) : ∀ (l : List String)
    (children : List units.Node) (ci : Nat)
    (mode : Option (String × model.Kind)) (params : List String)
    (kinds : List model.Kind), l.length ≤ n →
    okM (pk_go l children ci mode params kinds) := by
  induction n with
  | zero =>
    intro l children ci mode params kinds hl
    have hnil : l = [] := List.eq_nil_of_length_eq_zero (Nat.le_zero.mp hl)
    subst hnil
    exact ⟨_, rfl⟩
  | succ n ih =>
    intro l children ci mode params kinds hl
    cases l with
    | nil => exact ⟨_, rfl⟩
    | cons atom rest =>
      cases rest with
      | nil =>
        cases mode <;> simp only [pk_go] <;>
          repeat' first
            | exact ⟨_, rfl⟩
            | split
      | cons b r2 =>
        simp only [List.length_cons] at hl
        cases mode <;> simp only [pk_go] <;>
          repeat' first
            | exact ⟨_, rfl⟩
            | (refine ih _ children _ _ _ _ ?_
               try simp only [List.length_cons]
               omega)
            | (apply okM_bind (okM_idx (by first
                  | assumption
                  | exact List.length_pos.mpr (by assumption))) ; intro _)
            | split

theorem pk_go_ok (l : List String) (children : List units.Node) (ci : Nat)
    (mode : Option (String × model.Kind)) (params : List String)
    (kinds : List model.Kind) : okM (pk_go l children ci mode params kinds) :=
  pk_go_okAux l.length l children ci mode params kinds (Nat.le_refl _)

end evaluator

namespace evaluator

theorem parse_keyed_ok (atoms : List String) (children : List units.Node) :
    okM (parse_keyed_params_with_kinds atoms children) := by
  unfold parse_keyed_params_with_kinds
  exact okM_bind (pk_go_ok _ _ _ _ _ _) (fun r => okM_pure _)

theorem register_typedef_stmt_ok (env : environment.Environment)
    (unit : units.Unit) : okM (register_typedef_stmt env unit) := by
  unfold register_typedef_stmt
  dsimp only
  repeat' first
    | exact okM_pure _
    | exact okM_bind (parse_keyed_ok _ _) (fun r => okM_pure _)
    | split

theorem register_definition_ok (env : environment.Environment)
    (stmt : units.Statement) : okM (register_definition env stmt) := by
  unfold register_definition
  repeat' first
    | exact okM_pure _
    | exact register_typedef_stmt_ok _ _
    | split

theorem pass1_ok (stmts : List units.Statement)
    (env : environment.Environment) : okM (pass1 stmts env) := by
  unfold pass1
  apply okM_foldlM
  intro s stmt
  split
  · exact register_definition_ok _ _
  · exact okM_pure _

theorem create_entity_ok (env : environment.Environment) (tn : String)
    (args : List String) : okM (create_entity env tn args) := by
  unfold create_entity
  split
  · exact okM_pure _
  · rename_i x td heq
    apply okM_bind _ (fun fields => okM_pure _)
    apply okM_foldlM
    intro fields p
    dsimp only
    by_cases h1 : p.1 < args.length
    · rw [if_pos h1]
      by_cases h2 : p.1 < td.kinds.length
      · rw [if_pos h2]
        exact okM_bind (okM_idx h2)
          (fun kind => okM_bind (okM_idx h1) (fun a => okM_pure _))
      · rw [if_neg h2]
        exact okM_bind (okM_pure _)
          (fun kind => okM_bind (okM_idx h1) (fun a => okM_pure _))
    · rw [if_neg h1]
      exact okM_pure _

theorem create_entity_keyed_ok (env : environment.Environment) (tn : String)
    (kwargs : List (String × String)) : okM (create_entity_keyed env tn kwargs) := by
  unfold create_entity_keyed
  split
  · exact okM_pure _
  · rename_i x td heq
    apply okM_bind _ (fun fields => okM_pure _)
    apply okM_foldlM
    intro fields p
    dsimp only
    split
    · by_cases h2 : p.1 < td.kinds.length
      · rw [if_pos h2]
        exact okM_bind (okM_idx h2) (fun kind => okM_pure _)
      · rw [if_neg h2]
        exact okM_bind (okM_pure _) (fun kind => okM_pure _)
    · exact okM_pure _

theorem eval_type_call_ok (env : environment.Environment)
    (unit : units.Unit) : okM (eval_type_call env unit) := by
  unfold eval_type_call
  dsimp only
  repeat' first
    | exact okM_bind (create_entity_ok _ _ _) (fun e => okM_pure _)
    | exact okM_bind (create_entity_keyed_ok _ _ _) (fun e => okM_pure _)
    | exact okM_pure _
    | split

theorem child_to_value_ok (env : environment.Environment)
    (child : Option units.Node) : okM (child_to_value env child) := by
  unfold child_to_value
  dsimp only
  repeat' first
    | exact okM_pure _
    | split
    | (apply okM_bind (okM_idx (by first
          | omega
          | exact List.length_pos.mpr (by assumption))) ; intro _)

theorem apply_batch_setter_ok (entity : model.Entity) (unit : units.Unit) :
    okM (apply_batch_setter entity unit) := by
  unfold apply_batch_setter
  dsimp only
  repeat' first
    | exact okM_pure _
    | split
    | (apply okM_bind (okM_idx (by first
          | omega
          | exact List.length_pos.mpr (by assumption))) ; intro _)

theorem apply_setter_ok (env : environment.Environment) (base : model.Value)
    (unit : units.Unit) : okM (apply_setter env base unit) := by
  unfold apply_setter
  repeat' first
    | exact okM_pure _
    | exact okM_bind (apply_batch_setter_ok _ _) (fun e => okM_pure _)
    | exact okM_bind (child_to_value_ok _ _) (fun v => okM_pure _)
    | split

theorem eval_single_unit_ok (env : environment.Environment)
    (unit : units.Unit) : okM (eval_single_unit env unit) := by
  unfold eval_single_unit
  repeat' first
    | exact okM_pure _
    | exact eval_type_call_ok _ _
    | split

theorem apply_unit_ok (env : environment.Environment) (base : model.Value)
    (unit : units.Unit) : okM (apply_unit env base unit) := by
  unfold apply_unit
  repeat' first
    | exact okM_pure _
    | exact eval_type_call_ok _ _
    | exact apply_setter_ok _ _ _
    | split

theorem eval_unit_chain_ok (env : environment.Environment)
    (us : List units.Unit) (start : Nat) : okM (eval_unit_chain env us start) := by
  unfold eval_unit_chain
  split
  · exact okM_pure _
  · apply okM_bind (okM_idx (by omega))
    intro first
    apply okM_bind (eval_single_unit_ok _ _)
    intro base
    exact okM_foldlM _ (fun b u => apply_unit_ok _ _ _) _ _

theorem eval_statement_ok (env : environment.Environment)
    (stmt : units.Statement) : okM (eval_statement env stmt) := by
  unfold eval_statement
  split
  · exact okM_pure _
  · exact okM_bind (eval_unit_chain_ok _ _ _) (fun v => okM_pure _)

theorem eval_global_def_ok (env : environment.Environment)
    (stmt : units.Statement) (h : stmt.units ≠ []) :
    okM (eval_global_def env stmt) := by
  unfold eval_global_def
  apply okM_bind (okM_idx (List.length_pos.mpr h))
  intro first
  repeat' first
    | exact okM_pure _
    | exact eval_unit_chain_ok _ _ _
    | exact child_to_value_ok _ _
    | (apply okM_bind _ (fun v => okM_pure _))
    | split

theorem eval_local_def_ok (env : environment.Environment)
    (stmt : units.Statement) (h : stmt.units ≠ []) :
    okM (eval_local_def env stmt) := by
  unfold eval_local_def
  apply okM_bind (okM_idx (List.length_pos.mpr h))
  intro first
  repeat' first
    | exact okM_pure _
    | exact eval_unit_chain_ok _ _ _
    | exact child_to_value_ok _ _
    | (apply okM_bind _ (fun v => okM_pure _))
    | split

theorem eval_definition_ok (env : environment.Environment)
    (stmt : units.Statement) : okM (eval_definition env stmt) := by
  unfold eval_definition
  split
  · exact okM_pure _
  · rename_i first rest heq
    split
    · exact okM_pure _
    · exact eval_global_def_ok _ _ (by rw [heq]; exact List.cons_ne_nil _ _)
    · exact eval_local_def_ok _ _ (by rw [heq]; exact List.cons_ne_nil _ _)
    · exact okM_pure _

theorem pass2_ok (stmts : List units.Statement)
    (env : environment.Environment) : okM (pass2 stmts env) := by
  unfold pass2
  apply okM_foldlM
  intro acc stmt
  split
  · exact okM_bind (eval_definition_ok _ _) (fun e => okM_pure _)
  · apply okM_bind (eval_statement_ok _ _)
    intro v
    split <;> exact okM_pure _

theorem evaluate_ok (root : units.Node) : okM (evaluate root) := by
  unfold evaluate
  apply okM_bind (pass1_ok _ _)
  intro env
  exact okM_bind (pass2_ok _ _) (fun er => okM_pure _)

end evaluator

namespace document

open evaluator

theorem evaluate_into_ok (env : environment.Environment) (root : units.Node) :
    okM (evaluate_into env root) := by
  unfold evaluate_into
  exact okM_bind (pass1_ok _ _) (fun env2 => pass2_ok _ _)

theorem merge_ok (doc : Document) (root : units.Node) : okM (merge doc root) := by
  unfold merge
  exact okM_bind (evaluate_into_ok _ _) (fun er => okM_pure _)

end document

section DictLemmas

theorem lookup_dictSet_self {α : Type} (d : List (String × α)) (k : String)
    (v : α) : (dictSet d k v).lookup k = some v := by
  induction d with
  | nil => simp [dictSet, List.lookup]
  | cons p rest ih =>
    obtain ⟨k2, v2⟩ := p
    by_cases h : k2 = k
    · subst h; simp [dictSet, List.lookup]
    · have hb : (k == k2) = false := by
        simp only [beq_eq_false_iff_ne, ne_eq]
        exact fun hh => h hh.symm
      simp [dictSet, h, List.lookup, hb, ih]

theorem lookup_dictSet_ne {α : Type} (d : List (String × α)) (k k2 : String)
    (v : α) (h : k2 ≠ k) : (dictSet d k v).lookup k2 = d.lookup k2 := by
  induction d with
  | nil =>
    have hb : (k2 == k) = false := by simpa using h
    simp [dictSet, List.lookup, hb]
  | cons p rest ih =>
    obtain ⟨k3, v3⟩ := p
    by_cases h3 : k3 = k
    · subst h3
      have hb : (k2 == k3) = false := by simpa using h
      simp [dictSet, List.lookup, hb]
    · simp [dictSet, h3, List.lookup, ih]

theorem dictKeys_dictSet_of_mem {α : Type} (d : List (String × α))
    (k : String) (v : α) (h : k ∈ dictKeys d) :
    dictKeys (dictSet d k v) = dictKeys d := by
  induction d with
  | nil => simp [dictKeys] at h
  | cons p rest ih =>
    obtain ⟨k2, v2⟩ := p
    by_cases h2 : k2 = k
    · subst h2; simp [dictSet, dictKeys]
    · have hmem : k ∈ dictKeys rest := by
        simp [dictKeys] at h
        rcases h with h | h
        · exact absurd h.symm h2
        · simpa [dictKeys] using h
      simp only [dictSet, if_neg h2, dictKeys, List.map_cons, List.cons.injEq,
        true_and]
      simpa [dictKeys] using ih hmem

theorem dictKeys_dictSet_of_not_mem {α : Type} (d : List (String × α))
    (k : String) (v : α) (h : k ∉ dictKeys d) :
    dictKeys (dictSet d k v) = dictKeys d ++ [k] := by
  induction d with
  | nil => simp [dictSet, dictKeys]
  | cons p rest ih =>
    obtain ⟨k2, v2⟩ := p
    have h2 : k2 ≠ k := by
      intro hh
      exact h (by simp [dictKeys, hh])
    have hmem : k ∉ dictKeys rest := by
      intro hh
      exact h (by simp [dictKeys]; right; simpa [dictKeys] using hh)
    simp only [dictSet, if_neg h2, dictKeys, List.map_cons, List.cons_append,
      List.cons.injEq, true_and]
    simpa [dictKeys] using ih hmem

end DictLemmas

/-- C4: graceful degradation / totality — for every lexer tree, however
malformed, `evaluate` returns a Document and never raises: the
`Except`-instrumented embedding (whose `idx` faults exactly where a
Python subscript would raise `IndexError`) always returns `ok`. -/
theorem C4_totality (root : units.Node) :
    ∃ doc, evaluator.evaluate root = Except.ok doc :=
  evaluator.evaluate_ok root

/-- C3: end-to-end round-trip — evaluating the lexer tree of
`@%Rect (x y w h) ; @#R1 %Rect(10 20 100 50) ; #R1.x` (chunks split at
`%` sigils and `;`, with the two parenthesized groups as child nodes)
yields the result sequence `[Number 10]` and a public entry `R1` whose
entity has exactly the fields x=10, y=20, w=100, h=50 and no props. -/
theorem C3_roundtrip :
    (evaluator.evaluate
        (units.Node.mk
          [["@"], ["%", "Rect"], ["@", "#", "R1"], ["%", "Rect"],
           ["#", "R1", ".", "x"]]
          [.mk [["x", "y", "w", "h"]] [], .mk [["10", "20", "100", "50"]] []])).map
      (fun d => (d.results, d.environment.globals_.lookup "R1")) =
    Except.ok ([model.Value.VNumber 10],
      some (model.Value.VEntity (model.Entity.mk "Rect"
        [("x", .VNumber 10), ("y", .VNumber 20), ("w", .VNumber 100),
         ("h", .VNumber 50)] []))) := by
  rfl

/-- C8: reserved non-override — an entity instantiated from a schema
carries the schema's reserved mapping verbatim, a `:__` instance
argument never changes it, and neither the single setter nor the batch
setter ever touches the reserved mapping of any value. -/
theorem C8_reserved :
    (∀ (td : typedef.TypeDef) (kwargs : List (String × values.Value)),
      (stnspec.create_entity_keyed_reserved td kwargs).reservedOf =
        td.reserved) ∧
    (∀ (v : values.Value) (fn : String) (node : reader.RNode),
      (setter.apply_setter v fn node).reservedOf = v.reservedOf) ∧
    (∀ (v : values.Value) (node : reader.RNode),
      (setter.apply_batch_setter v node).reservedOf = v.reservedOf) := by
  refine ⟨fun td kwargs => rfl, fun v fn node => ?_, fun v node => ?_⟩
  · cases v <;> try rfl
    simp only [setter.apply_setter]
    repeat' first
      | rfl
      | split
  · cases v <;> rfl

/-- C2 counterexample: the claim says a setter writes into `fields` when
the name is already a field key and never creates a `props` entry of
that name; but `setter.apply_setter` on an entity with field `x`
writes the parsed argument into `props["x"]` and leaves the field
untouched. -/
theorem C2_counterexample :
    setter.apply_setter
        (.VEntity none (some "T") [("x", .VNumber 1)] [] [])
        "x"
        (.mk [.inl ⟨.NUMBER, "5", true, true⟩]) =
      .VEntity none (some "T") [("x", .VNumber 1)] [("x", .VNumber 5)] [] ∧
    (values.Value.VEntity none (some "T") [("x", values.Value.VNumber 1)]
        [("x", values.Value.VNumber 5)] []).fieldsOf.lookup "x" =
      some (.VNumber 1) := by
  exact ⟨rfl, rfl⟩

/-- C2 (amended): the fields-first set-field-or-prop rule holds for the
evaluator's setter path `_set_field_or_prop`: a name already present in
`fields` is overwritten there and no props entry is created; any other
name goes to `props` (overwriting an existing entry or appending a new
one); no call ever creates a new key in `fields`. -/
theorem C2_set_field_or_prop (e : model.Entity) (k : String)
    (v : model.Value) :
    (evaluator.set_field_or_prop e k v).type_name = e.type_name ∧
    (evaluator.set_field_or_prop e k v).fields =
      (if k ∈ dictKeys e.fields then dictSet e.fields k v else e.fields) ∧
    (evaluator.set_field_or_prop e k v).props =
      (if k ∈ dictKeys e.fields then e.props else dictSet e.props k v) ∧
    dictKeys (evaluator.set_field_or_prop e k v).fields = dictKeys e.fields := by
  obtain ⟨tn, fields, props⟩ := e
  by_cases h : k ∈ dictKeys fields
  · simp [evaluator.set_field_or_prop, h, model.Entity.fields,
      model.Entity.props, model.Entity.type_name,
      dictKeys_dictSet_of_mem _ _ _ h]
  · by_cases h2 : k ∈ dictKeys props <;>
      simp [evaluator.set_field_or_prop, h, h2, model.Entity.fields,
        model.Entity.props, model.Entity.type_name]

/-- C5 counterexample: the claim says `atomToValue` unescapes escaped
closing brackets inside a bracket literal, but
`chunk_utils.atom_to_value` only strips the outer brackets and keeps
the backslash. -/
theorem C5_counterexample :
    chunk_utils.atom_to_value "[a\\]b]" = .VText "a\\]b" ∧
    (model.Value.VText "a\\]b" ≠ model.Value.VText "a]b") := by
  constructor
  · rfl
  · intro h
    have : "a\\]b" = "a]b" := by injection h
    simp at this

theorem foldl_digits_shift (b : List Char) : ∀ (s : Nat),
    b.foldl (fun acc c => acc * 10 + (c.toNat - '0'.toNat)) s =
    s * 10 ^ b.length + b.foldl (fun acc c => acc * 10 + (c.toNat - '0'.toNat)) 0 := by
  induction b with
  | nil => intro s; simp
  | cons c bs ih =>
    intro s
    simp only [List.foldl_cons, List.length_cons]
    rw [ih (s * 10 + (c.toNat - '0'.toNat)), ih (0 * 10 + (c.toNat - '0'.toNat))]
    ring

theorem digitsToNat_append (a b : List Char) :
    digitsToNat (a ++ b) = digitsToNat a * 10 ^ b.length + digitsToNat b := by
  unfold digitsToNat
  rw [List.foldl_append, foldl_digits_shift]

theorem mkRat_digits (a b : List Char) :
    (mkRat (Int.ofNat (digitsToNat (a ++ b))) (10 ^ b.length) : ℚ) =
    (digitsToNat a : ℚ) + (digitsToNat b : ℚ) / 10 ^ b.length := by
  rw [Rat.mkRat_eq_div, digitsToNat_append]
  push_cast
  have h : ((10 : ℚ) ^ b.length) ≠ 0 := by positivity
  field_simp

theorem decimalToRat_eq_spec (s : String) :
    decimalToRat s = chunk_utils.specDecimalVal s := by
  unfold decimalToRat chunk_utils.specDecimalVal
  dsimp only
  cases hneg : (stripMinus s.data).1
  · simp only [Bool.false_eq_true, if_false, mkRat_digits]
  · simp only [if_true]
    rw [show ∀ (m : Int) (d : Nat), mkRat (-m) d = -mkRat m d from
      fun m d => by rw [Rat.neg_mkRat]]
    rw [mkRat_digits]

theorem M_bind_ok {α β : Type} (a : α) (f : α → evaluator.M β) :
    ((Except.ok a : evaluator.M α) >>= f) = f a := rfl

theorem M_map_ok {α β : Type} (g : α → β) (a : α) :
    (g <$> (Except.ok a : evaluator.M α)) = Except.ok (g a) := rfl

theorem M_pure_eq {α : Type} (a : α) : (pure a : evaluator.M α) = Except.ok a := rfl

/-- C5 (amended): `chunk_utils.atom_to_value` classifies exactly as the
specification sentence describes, except that escaped closing brackets
are not unescaped: numeric literals become Numbers with the exact
parsed decimal magnitude, bracket literals are stripped and classified
as Date or Text, everything else is Text. -/
theorem C5_atom_to_value (s : String) :
    chunk_utils.atom_to_value s = chunk_utils.atomValueDescribed s := by
  unfold chunk_utils.atom_to_value chunk_utils.atomValueDescribed
  rw [decimalToRat_eq_spec]

/-- C6: unresolved references — a bare `#n` statement with `n` absent
from the public table evaluates to Empty; a `#name` / `@name` reference
inside a child argument substitutes the resolved value when it is
non-Empty and otherwise becomes the `Ref name` placeholder; and
`!tag(#unknown)` on an entity (with `unknown` undefined and `tag` a
fresh name) creates a prop whose value is `Ref "unknown"`. -/
theorem C6_unresolved_refs :
    (∀ (env : environment.Environment) (n : String),
      env.globals_.lookup n = none →
      evaluator.eval_statement env ⟨[⟨⟨.GlobalRef⟩, some n, none⟩], false⟩ =
        Except.ok (some .Empty)) ∧
    (∀ (env : environment.Environment) (name : String),
      evaluator.child_to_value env (some (.mk [["#", name]] [])) =
        Except.ok (if (environment.get_global env name).isEmptyV
          then .VRef name else environment.get_global env name)) ∧
    (∀ (env : environment.Environment) (name : String),
      evaluator.child_to_value env (some (.mk [["@", name]] [])) =
        Except.ok (if (environment.get_local env name).isEmptyV
          then .VRef name else environment.get_local env name)) ∧
    (∀ (env : environment.Environment) (e : model.Entity) (tag uname : String),
      env.globals_.lookup uname = none →
      tag ≠ "+" →
      tag ∉ dictKeys e.fields →
      evaluator.apply_setter env (.VEntity e)
          ⟨⟨.Setter⟩, some tag, some (.mk [["#", uname]] [])⟩ =
        Except.ok (.VEntity (evaluator.set_field_or_prop e tag (.VRef uname))) ∧
      (evaluator.set_field_or_prop e tag (.VRef uname)).props.lookup tag =
        some (.VRef uname)) := by
  refine ⟨?_, ?_, ?_, ?_⟩
  · intro env n h
    simp [evaluator.eval_statement, evaluator.eval_unit_chain, evaluator.idx,
      evaluator.eval_single_unit, environment.get_global, h, M_bind_ok,
      M_map_ok, M_pure_eq]
  · intro env name
    by_cases hc : (environment.get_global env name).isEmptyV
    · simp [evaluator.child_to_value, evaluator.idx, units.Node.chunks,
        M_bind_ok, M_pure_eq, hc]
    · simp [evaluator.child_to_value, evaluator.idx, units.Node.chunks,
        M_bind_ok, M_pure_eq, hc]
  · intro env name
    by_cases hc : (environment.get_local env name).isEmptyV
    · simp [evaluator.child_to_value, evaluator.idx, units.Node.chunks,
        M_bind_ok, M_pure_eq, hc]
    · simp [evaluator.child_to_value, evaluator.idx, units.Node.chunks,
        M_bind_ok, M_pure_eq, hc]
  · intro env e tag uname hu htag hfresh
    have hval : (environment.get_global env uname).isEmptyV = true := by
      simp [environment.get_global, hu, model.Value.isEmptyV]
    constructor
    · simp [evaluator.apply_setter, evaluator.child_to_value, evaluator.idx,
        units.Node.chunks, M_bind_ok, M_pure_eq, htag, hval]
    · obtain ⟨tn, fields, props⟩ := e
      simp only [evaluator.set_field_or_prop, model.Entity.fields,
        model.Entity.props] at hfresh ⊢
      rw [if_neg hfresh]
      by_cases hp : tag ∈ dictKeys props
      · rw [if_pos hp]
        exact lookup_dictSet_self _ _ _
      · rw [if_neg hp]
        exact lookup_dictSet_self _ _ _

/-- C6 witness. -/
theorem C6_unresolved_refs_witness :
    evaluator.eval_statement environment.Environment.init
        ⟨[⟨⟨.GlobalRef⟩, some "NOPE", none⟩], false⟩ =
      Except.ok (some .Empty) ∧
    evaluator.apply_setter environment.Environment.init
        (.VEntity (.mk "Pt" [("x", .VNumber 1)] []))
        ⟨⟨.Setter⟩, some "tag", some (.mk [["#", "unknown"]] [])⟩ =
      Except.ok (.VEntity (evaluator.set_field_or_prop
        (.mk "Pt" [("x", .VNumber 1)] []) "tag" (.VRef "unknown"))) ∧
    (evaluator.set_field_or_prop (.mk "Pt" [("x", .VNumber 1)] [])
        "tag" (.VRef "unknown")).props.lookup "tag" =
      some (.VRef "unknown") := by
  refine ⟨C6_unresolved_refs.1 environment.Environment.init "NOPE" (by rfl),
    (C6_unresolved_refs.2.2.2 environment.Environment.init
      (.mk "Pt" [("x", .VNumber 1)] []) "tag" "unknown"
      (by rfl) (by decide) (by decide)).1,
    (C6_unresolved_refs.2.2.2 environment.Environment.init
      (.mk "Pt" [("x", .VNumber 1)] []) "tag" "unknown"
      (by rfl) (by decide) (by decide)).2⟩

section C10Lemmas

open model environment evaluator

theorem create_entity_eq_fold (env : environment.Environment) (tn : String)
    (args : List String) (td : model.TypeDef)
    (h : environment.resolve_typedef env tn = some td) :
    evaluator.create_entity env tn args =
      (td.params.enum.foldlM (ce_step td args) []) >>=
        (fun fields => pure (.mk tn fields [])) := by
  unfold evaluator.create_entity
  rw [h]
  rfl

theorem ce_step_take (td : model.TypeDef) (args : List String) (n : Nat)
    (hn : n ≤ args.length) :
    ∀ (ps : List (Nat × String)), (∀ q ∈ ps, q.1 < n) →
    ∀ fields, ps.foldlM (ce_step td args) fields =
      ps.foldlM (ce_step td (args.take n)) fields := by
  intro ps
  induction ps with
  | nil => intro _ fields; rfl
  | cons q qs ih =>
    intro hq fields
    have hq1 : q.1 < n := hq q (by simp)
    rw [List.foldlM_cons, List.foldlM_cons]
    have hstep : ce_step td args fields q = ce_step td (args.take n) fields q := by
      unfold ce_step
      dsimp only
      have h1 : q.1 < args.length := Nat.lt_of_lt_of_le hq1 hn
      have h2 : q.1 < (args.take n).length := by
        simp [List.length_take]
        omega
      rw [if_pos h1, if_pos h2]
      have : evaluator.idx args q.1 = evaluator.idx (args.take n) q.1 := by
        unfold evaluator.idx
        rw [List.get?_eq_getElem?, List.get?_eq_getElem?, List.getElem?_take_of_lt hq1]
      rw [this]
    rw [hstep]
    have hrest : ∀ q2 ∈ qs, q2.1 < n := fun q2 hm => hq q2 (by simp [hm])
    have h2t : q.1 < (args.take n).length := by
      simp [List.length_take]
      omega
    obtain ⟨r, hr⟩ : evaluator.okM (ce_step td (args.take n) fields q) := by
      unfold ce_step
      dsimp only
      rw [if_pos h2t]
      by_cases h3 : q.1 < td.kinds.length
      · rw [if_pos h3]
        exact evaluator.okM_bind (evaluator.okM_idx h3)
          (fun kind => evaluator.okM_bind (evaluator.okM_idx h2t)
            (fun a => evaluator.okM_pure _))
      · rw [if_neg h3]
        exact evaluator.okM_bind (evaluator.okM_pure _)
          (fun kind => evaluator.okM_bind (evaluator.okM_idx h2t)
            (fun a => evaluator.okM_pure _))
    rw [hr, M_bind_ok, M_bind_ok]
    exact ih hrest r

theorem ce_step_keys (td : model.TypeDef) (args : List String) :
    ∀ (ps : List (Nat × String)), (∀ q ∈ ps, q.1 < args.length) →
    ∀ fields, (∀ q ∈ ps, q.2 ∉ dictKeys fields) →
    (ps.map Prod.snd).Nodup →
    ∃ f2, ps.foldlM (ce_step td args) fields = Except.ok f2 ∧
      dictKeys f2 = dictKeys fields ++ ps.map Prod.snd := by
  intro ps
  induction ps with
  | nil => intro _ fields _ _; exact ⟨fields, rfl, by simp⟩
  | cons q qs ih =>
    intro hlt fields hdisj hnd
    have h1 : q.1 < args.length := hlt q (by simp)
    have hstep : ∃ v, ce_step td args fields q =
        Except.ok (dictSet fields q.2 v) := by
      unfold ce_step
      dsimp only
      rw [if_pos h1]
      by_cases h2 : q.1 < td.kinds.length
      · rw [if_pos h2]
        obtain ⟨kind, hkind⟩ := @evaluator.okM_idx model.Kind td.kinds q.1 h2
        obtain ⟨a, ha⟩ := @evaluator.okM_idx String args q.1 h1
        rw [hkind, M_bind_ok, ha, M_bind_ok]
        exact ⟨_, rfl⟩
      · rw [if_neg h2]
        obtain ⟨a, ha⟩ := @evaluator.okM_idx String args q.1 h1
        rw [show (pure model.Kind.Text : evaluator.M model.Kind) =
          Except.ok model.Kind.Text from rfl, M_bind_ok, ha, M_bind_ok]
        exact ⟨_, rfl⟩
    obtain ⟨v, hv⟩ := hstep
    rw [List.foldlM_cons, hv, M_bind_ok]
    have hqk : q.2 ∉ dictKeys fields := hdisj q (by simp)
    have hkeys : dictKeys (dictSet fields q.2 v) = dictKeys fields ++ [q.2] :=
      dictKeys_dictSet_of_not_mem _ _ _ hqk
    have hnd2 : (qs.map Prod.snd).Nodup := by
      simp only [List.map_cons, List.nodup_cons] at hnd
      exact hnd.2
    have hdisj2 : ∀ q2 ∈ qs, q2.2 ∉ dictKeys (dictSet fields q.2 v) := by
      intro q2 hm
      rw [hkeys]
      simp only [List.mem_append, List.mem_singleton]
      rintro (hc | hc)
      · exact hdisj q2 (by simp [hm]) hc
      · simp only [List.map_cons, List.nodup_cons] at hnd
        exact hnd.1 (hc ▸ List.mem_map_of_mem Prod.snd hm)
    obtain ⟨f2, hf2, hf2keys⟩ := ih (fun q2 hm => hlt q2 (by simp [hm]))
      (dictSet fields q.2 v) hdisj2 hnd2
    exact ⟨f2, hf2, by rw [hf2keys, hkeys]; simp⟩

end C10Lemmas

/-- C10: surplus positional arguments are silently discarded. For a
registered schema, `create_entity` on an over-long argument list equals
`create_entity` on the arguments truncated to the member count; the
resulting entity is produced without error, carries no props, and (when
the schema's member names are distinct) its field keys are exactly the
schema-declared members. Only an unknown-schema instantiation keeps every
positional argument, under synthetic names `_0`, `_1`, .... -/
theorem C10_surplus_args (env : environment.Environment) (tn : String)
    (args : List String) (td : model.TypeDef)
    (hres : environment.resolve_typedef env tn = some td)
    (hsur : td.params.length ≤ args.length) :
    (evaluator.create_entity env tn args =
       evaluator.create_entity env tn (args.take td.params.length)) ∧
    (td.params.Nodup →
       ∃ e, evaluator.create_entity env tn args = Except.ok e ∧
         e.type_name = tn ∧ e.props = [] ∧ dictKeys e.fields = td.params) ∧
    (∀ tn2 args2, environment.resolve_typedef env tn2 = none →
       evaluator.create_entity env tn2 args2 = Except.ok
         (model.Entity.mk tn2
           (args2.enum.map
             (fun p => ("_" ++ toString p.1, chunk_utils.atom_to_value p.2)))
           [])) := by
  refine ⟨?_, ?_, ?_⟩
  · rw [create_entity_eq_fold env tn args td hres,
        create_entity_eq_fold env tn (args.take td.params.length) td hres,
        ce_step_take td args td.params.length hsur td.params.enum
          (fun q hq => List.fst_lt_of_mem_enum hq) []]
  · intro hnd
    obtain ⟨f2, hf2, hkeys⟩ := ce_step_keys td args td.params.enum
      (fun q hq => Nat.lt_of_lt_of_le (List.fst_lt_of_mem_enum hq) hsur)
      [] (fun q _ hc => by simp [dictKeys] at hc)
      (by rw [List.enum_map_snd]; exact hnd)
    refine ⟨model.Entity.mk tn f2 [], ?_, rfl, rfl, ?_⟩
    · rw [create_entity_eq_fold env tn args td hres, hf2, M_bind_ok]
      rfl
    · simp only [model.Entity.fields]
      rw [hkeys, List.enum_map_snd]
      simp [dictKeys]
  · intro tn2 args2 h
    unfold evaluator.create_entity
    rw [h]
    rfl

/-- Witness for C10: the `Rect` schema takes two members; instantiating it
with three arguments satisfies every hypothesis of the theorem. -/
theorem C10_surplus_args_witness :
    environment.resolve_typedef c10_env "Rect" = some c10_td ∧
    c10_td.params.length ≤ ["1", "2", "3"].length ∧
    ((evaluator.create_entity c10_env "Rect" ["1", "2", "3"] =
       evaluator.create_entity c10_env "Rect"
         (["1", "2", "3"].take c10_td.params.length)) ∧
    (c10_td.params.Nodup →
       ∃ e, evaluator.create_entity c10_env "Rect" ["1", "2", "3"] =
           Except.ok e ∧
         e.type_name = "Rect" ∧ e.props = [] ∧ dictKeys e.fields = c10_td.params) ∧
    (∀ tn2 args2, environment.resolve_typedef c10_env tn2 = none →
       evaluator.create_entity c10_env tn2 args2 = Except.ok
         (model.Entity.mk tn2
           (args2.enum.map
             (fun p => ("_" ++ toString p.1, chunk_utils.atom_to_value p.2)))
           []))) :=
  ⟨rfl, by decide,
    C10_surplus_args c10_env "Rect" ["1", "2", "3"] c10_td rfl (by decide)⟩

/-- C1: getter resolution order. On an entity, `apply_getter` returns the
field named by the accessor if present, else the prop of that name, else
(when the accessor parses as an integer) the 1-based positional field
value when in range, else `Empty`; a field shadows a prop of the same
name. On a list, an integer accessor indexes 1-based, out-of-range or
non-numeric accessors give `Empty`; every non-entity non-list value gives
`Empty`. -/
theorem C1_getter_resolution (accessor : String) :
    (∀ (td : Option typedef.TypeDef) (tn : Option String) fields props
        reserved (v : values.Value),
      fields.lookup accessor = some v →
      getter.apply_getter (.VEntity td tn fields props reserved) accessor = v) ∧
    (∀ td tn fields props reserved (v : values.Value),
      fields.lookup accessor = none →
      props.lookup accessor = some v →
      getter.apply_getter (.VEntity td tn fields props reserved) accessor = v) ∧
    (∀ td tn (fields props reserved : List (String × values.Value)) (k : Int),
      fields.lookup accessor = none →
      props.lookup accessor = none →
      pyInt? accessor = some k →
      1 ≤ k → k ≤ fields.length →
      getter.apply_getter (.VEntity td tn fields props reserved) accessor =
        ((fields.map Prod.snd).get? (k - 1).toNat).getD .Empty) ∧
    (∀ td tn (fields props reserved : List (String × values.Value)) (k : Int),
      fields.lookup accessor = none →
      props.lookup accessor = none →
      pyInt? accessor = some k →
      (k < 1 ∨ (fields.length : Int) < k) →
      getter.apply_getter (.VEntity td tn fields props reserved) accessor =
        .Empty) ∧
    (∀ td tn (fields props reserved : List (String × values.Value)),
      fields.lookup accessor = none →
      props.lookup accessor = none →
      pyInt? accessor = none →
      getter.apply_getter (.VEntity td tn fields props reserved) accessor =
        .Empty) ∧
    (∀ (items : List values.Value) (k : Int),
      pyInt? accessor = some k → 1 ≤ k → k ≤ items.length →
      getter.apply_getter (.VList items) accessor =
        (items.get? (k - 1).toNat).getD .Empty) ∧
    (∀ (items : List values.Value) (k : Int),
      pyInt? accessor = some k → (k < 1 ∨ (items.length : Int) < k) →
      getter.apply_getter (.VList items) accessor = .Empty) ∧
    (∀ (items : List values.Value),
      pyInt? accessor = none →
      getter.apply_getter (.VList items) accessor = .Empty) ∧
    (getter.apply_getter .Empty accessor = .Empty) ∧
    (∀ s, getter.apply_getter (.VText s) accessor = .Empty) ∧
    (∀ q, getter.apply_getter (.VNumber q) accessor = .Empty) ∧
    (∀ s, getter.apply_getter (.VDate s) accessor = .Empty) ∧
    (∀ b, getter.apply_getter (.VBool b) accessor = .Empty) ∧
    (∀ s cs, getter.apply_getter (.VEnum s cs) accessor = .Empty) ∧
    (∀ td tn fields props reserved (v w : values.Value),
      fields.lookup accessor = some v →
      props.lookup accessor = some w →
      getter.apply_getter (.VEntity td tn fields props reserved) accessor = v) := by
  refine ⟨?_, ?_, ?_, ?_, ?_, ?_, ?_, ?_, rfl, fun s => rfl, fun q => rfl,
    fun s => rfl, fun b => rfl, fun s cs => rfl, ?_⟩
  · intro td tn fields props reserved v hf
    simp [getter.apply_getter, hf]
  · intro td tn fields props reserved v hf hp
    simp [getter.apply_getter, hf, hp]
  · intro td tn fields props reserved k hf hp hk h1 h2
    have hcond : 0 ≤ k - 1 ∧ k - 1 < ((fields.map Prod.snd).length : Int) := by
      constructor
      · omega
      · simp only [List.length_map]
        omega
    simp [getter.apply_getter, hf, hp, hk, hcond]
    intro h3
    simp only [List.length_map] at hcond
    exact absurd h3 (by omega)
  · intro td tn fields props reserved k hf hp hk hrange
    have hcond : ¬(0 ≤ k - 1 ∧ k - 1 < ((fields.map Prod.snd).length : Int)) := by
      simp only [List.length_map]
      omega
    simp [getter.apply_getter, hf, hp, hk, hcond]
    intro h3 h4
    simp only [List.length_map] at hcond
    exact absurd ⟨by omega, h4⟩ hcond
  · intro td tn fields props reserved hf hp hk
    simp [getter.apply_getter, hf, hp, hk]
  · intro items k hk h1 h2
    have hcond : 0 ≤ k - 1 ∧ k - 1 < (items.length : Int) := by omega
    simp [getter.apply_getter, hk, hcond]
  · intro items k hk hrange
    have hcond : ¬(0 ≤ k - 1 ∧ k - 1 < (items.length : Int)) := by omega
    simp [getter.apply_getter, hk, hcond]
    intro h3 h4
    exact absurd ⟨by omega, h4⟩ hcond
  · intro items hk
    simp [getter.apply_getter, hk]
  · intro td tn fields props reserved v w hf hp
    simp [getter.apply_getter, hf]

/-- Witness for C1: a field shadows a same-named prop, and `.2` on a
two-item list returns the second item. -/
theorem C1_getter_resolution_witness :
    ([("n", values.Value.VText "field")].lookup "n" =
        some (values.Value.VText "field")) ∧
    ([("n", values.Value.VText "prop")].lookup "n" =
        some (values.Value.VText "prop")) ∧
    pyInt? "2" = some 2 ∧
    (getter.apply_getter
        (.VEntity none none [("n", values.Value.VText "field")]
          [("n", values.Value.VText "prop")] [])
        "n" = values.Value.VText "field") ∧
    (getter.apply_getter
        (.VList [values.Value.VText "a", values.Value.VText "b"]) "2" =
      values.Value.VText "b") :=
  ⟨rfl, rfl, rfl,
    (C1_getter_resolution "n").2.2.2.2.2.2.2.2.2.2.2.2.2.2 none none
      [("n", values.Value.VText "field")] [("n", values.Value.VText "prop")]
      [] (values.Value.VText "field") (values.Value.VText "prop") rfl rfl,
    ((C1_getter_resolution "2").2.2.2.2.2.1
      [values.Value.VText "a", values.Value.VText "b"] 2 rfl (by decide)
      (by decide)).trans rfl⟩

section C9Lemmas

theorem unitChildren_append (us vs : List units.Unit) :
    units.unitChildren (us ++ vs) =
      units.unitChildren us ++ units.unitChildren vs := by
  simp [units.unitChildren]

theorem unitChildren_snoc_none (us : List units.Unit)
    (lk : units.LeaderType) (op : Option String) :
    units.unitChildren (us ++ [⟨⟨lk⟩, op, none⟩]) = units.unitChildren us := by
  simp [units.unitChildren]

theorem unitChildren_snoc (us : List units.Unit) (lk : units.LeaderType)
    (op : Option String) (child : Option units.Node) :
    units.unitChildren (us ++ [⟨⟨lk⟩, op, child⟩]) =
      units.unitChildren us ++ child.toList := by
  cases child <;> simp [units.unitChildren]

theorem take_child_spec (children : List units.Node) (ci : Nat)
    (h : ci ≤ children.length) :
    ci ≤ (units.take_child children ci).2 ∧
    (units.take_child children ci).2 ≤ children.length ∧
    (units.take_child children ci).1.toList =
      (children.drop ci).take ((units.take_child children ci).2 - ci) := by
  unfold units.take_child
  cases hg : children.get? ci with
  | none =>
    exact ⟨Nat.le_refl ci, h, by simp⟩
  | some c =>
    have hlt : ci < children.length := by
      by_contra hc
      push_neg at hc
      rw [List.get?_eq_getElem?, List.getElem?_eq_none hc] at hg
      cases hg
    have hcel : children[ci] = c := by
      have := hg
      rw [List.get?_eq_getElem?, List.getElem?_eq_getElem hlt] at this
      exact Option.some.inj this
    have hdrop : children.drop ci = c :: children.drop (ci + 1) := by
      rw [List.drop_eq_getElem_cons hlt, hcel]
    have h1 : ci + 1 - ci = 1 := by omega
    refine ⟨Nat.le_succ ci, hlt, ?_⟩
    simp only [h1, hdrop]
    simp

theorem take_glue (children : List units.Node) (ci ci2 x : Nat)
    (h1 : ci ≤ ci2) (h2 : ci2 ≤ x) :
    (children.drop ci).take (ci2 - ci) ++ (children.drop ci2).take (x - ci2) =
      (children.drop ci).take (x - ci) := by
  have hx : x - ci = (ci2 - ci) + (x - ci2) := by omega
  have hd : (children.drop ci).drop (ci2 - ci) = children.drop ci2 := by
    rw [List.drop_drop]
    congr 1
    omega
  rw [hx, List.take_add, hd]

end C9Lemmas

theorem pas_go_children : ∀ (n : Nat) (l : List String), l.length ≤ n →
    ∀ (children : List units.Node) (ci : Nat) (d : Bool)
      (us : List units.Unit), ci ≤ children.length →
    ci ≤ (units.pas_go l children ci d us).2 ∧
    (units.pas_go l children ci d us).2 ≤ children.length ∧
    units.unitChildren (units.pas_go l children ci d us).1 =
      units.unitChildren us ++
        ((children.drop ci).take ((units.pas_go l children ci d us).2 - ci)) := by
  intro n
  induction n with
  | zero =>
    intro l hl children ci d us hci
    have hnil : l = [] := List.length_eq_zero.mp (Nat.le_zero.mp hl)
    subst hnil
    simp only [units.pas_go]
    exact ⟨Nat.le_refl ci, hci, by simp⟩
  | succ n ih =>
    intro l hl children ci d us hci
    cases l with
    | nil =>
      simp only [units.pas_go]
      exact ⟨Nat.le_refl ci, hci, by simp⟩
    | cons atom rest =>
      have hrest : rest.length ≤ n := by
        simp only [List.length_cons] at hl
        omega
      simp only [units.pas_go]
      cases hsig : units.sigil_map atom with
      | none =>
        exact ih rest hrest children ci d us hci
      | some lk =>
        dsimp only
        by_cases hsf : units.sigil_follows rest.head? = true
        · rw [if_pos hsf]
          obtain ⟨h1, h2, h3⟩ :=
            ih rest hrest children ci d (us ++ [⟨⟨lk⟩, none, none⟩]) hci
          exact ⟨h1, h2, by rw [h3, unitChildren_snoc_none]⟩
        · rw [if_neg hsf]
          cases rest with
          | nil =>
            dsimp only
            refine ⟨Nat.le_refl ci, hci, ?_⟩
            rw [unitChildren_snoc_none]
            simp
          | cons b r2 =>
            dsimp only
            have hr2 : r2.length ≤ n := by
              simp only [List.length_cons] at hl
              omega
            by_cases hsp : lk = units.LeaderType.Setter ∧ b = "+"
            · rw [if_pos hsp]
              rcases hct : units.take_child children ci with ⟨child, ci2⟩
              have hspec := take_child_spec children ci hci
              rw [hct] at hspec
              obtain ⟨ha, hb, hc⟩ := hspec
              dsimp only at ha hb hc ⊢
              obtain ⟨h1, h2, h3⟩ := ih r2 hr2 children ci2 d
                (us ++ [⟨⟨units.LeaderType.Setter⟩, some "+", child⟩]) hb
              refine ⟨Nat.le_trans ha h1, h2, ?_⟩
              rw [h3, unitChildren_snoc, hc, List.append_assoc,
                take_glue children ci ci2 _ ha h1]
            · rw [if_neg hsp]
              by_cases huc :
                  units.unit_consumes lk b r2.head? d us = true
              · rw [if_pos huc]
                rcases hct : units.take_child children ci with ⟨child, ci2⟩
                have hspec := take_child_spec children ci hci
                rw [hct] at hspec
                obtain ⟨ha, hb, hc⟩ := hspec
                dsimp only at ha hb hc ⊢
                obtain ⟨h1, h2, h3⟩ := ih r2 hr2 children ci2 d
                  (us ++ [⟨⟨lk⟩, some b, child⟩]) hb
                refine ⟨Nat.le_trans ha h1, h2, ?_⟩
                rw [h3, unitChildren_snoc, hc, List.append_assoc,
                  take_glue children ci ci2 _ ha h1]
              · rw [if_neg huc]
                dsimp only
                obtain ⟨h1, h2, h3⟩ := ih r2 hr2 children ci d
                  (us ++ [⟨⟨lk⟩, some b, none⟩]) hci
                exact ⟨h1, h2, by rw [h3, unitChildren_snoc_none]⟩

theorem pas_children (atoms : List String) (children : List units.Node)
    (ci : Nat) (h : ci ≤ children.length) :
    ci ≤ (units.parse_atoms_to_statement atoms children ci).2 ∧
    (units.parse_atoms_to_statement atoms children ci).2 ≤ children.length ∧
    units.unitChildren
        (units.parse_atoms_to_statement atoms children ci).1.units =
      (children.drop ci).take
        ((units.parse_atoms_to_statement atoms children ci).2 - ci) := by
  unfold units.parse_atoms_to_statement
  dsimp only
  split
  all_goals try split
  all_goals
    dsimp only
  all_goals
    obtain ⟨h1, h2, h3⟩ :=
      pas_go_children _ _ (Nat.le_refl _) children ci _ [] h
  all_goals
    exact ⟨h1, h2, by rw [h3]; simp [units.unitChildren]⟩

theorem stmtsChildren_append (a b : List units.Statement) :
    units.stmtsChildren (a ++ b) =
      units.stmtsChildren a ++ units.stmtsChildren b := by
  simp [units.stmtsChildren, units.unitChildren]

theorem stmtsChildren_single (s : units.Statement) :
    units.stmtsChildren [s] = units.unitChildren s.units := by
  simp [units.stmtsChildren, units.unitChildren]

theorem foldl_step_children (children : List units.Node)
    (f : List units.Statement × Nat → Nat × Nat → List units.Statement × Nat)
    (hf : ∀ acc r, acc.2 ≤ children.length →
      ∃ stmt ci, f acc r = (acc.1 ++ [stmt], ci) ∧ acc.2 ≤ ci ∧
        ci ≤ children.length ∧
        units.unitChildren stmt.units =
          (children.drop acc.2).take (ci - acc.2)) :
    ∀ (ranges : List (Nat × Nat)) (acc : List units.Statement × Nat),
      acc.2 ≤ children.length →
      units.stmtsChildren acc.1 = children.take acc.2 →
      (ranges.foldl f acc).2 ≤ children.length ∧
      units.stmtsChildren (ranges.foldl f acc).1 =
        children.take (ranges.foldl f acc).2 := by
  intro ranges
  induction ranges with
  | nil => intro acc h1 h2; exact ⟨h1, h2⟩
  | cons r rs ih =>
    intro acc h1 h2
    rw [List.foldl_cons]
    obtain ⟨stmt, ci, hf1, hf2, hf3, hf4⟩ := hf acc r h1
    rw [hf1]
    apply ih (acc.1 ++ [stmt], ci) hf3
    dsimp only
    rw [stmtsChildren_append, h2, stmtsChildren_single, hf4]
    simpa using take_glue children 0 acc.2 ci (Nat.zero_le _) hf2

theorem pcs_children (node : units.Node) :
    ∃ m, m ≤ node.children.length ∧
      units.stmtsChildren (units.parse_chunks_to_statements node) =
        node.children.take m := by
  have hf : ∀ (acc : List units.Statement × Nat) (r : Nat × Nat),
      acc.2 ≤ node.children.length →
      ∃ stmt ci,
        (acc.1 ++ [(units.parse_atoms_to_statement
            (((node.chunks.drop r.1).take (r.2 - r.1)).flatten)
            node.children acc.2).1],
          (units.parse_atoms_to_statement
            (((node.chunks.drop r.1).take (r.2 - r.1)).flatten)
            node.children acc.2).2) = (acc.1 ++ [stmt], ci) ∧
        acc.2 ≤ ci ∧ ci ≤ node.children.length ∧
        units.unitChildren stmt.units =
          (node.children.drop acc.2).take (ci - acc.2) := by
    intro acc r hacc
    obtain ⟨g1, g2, g3⟩ := pas_children
      (((node.chunks.drop r.1).take (r.2 - r.1)).flatten)
      node.children acc.2 hacc
    exact ⟨_, _, rfl, g1, g2, g3⟩
  obtain ⟨h1, h2⟩ := foldl_step_children node.children _ hf
    (units.group_ranges (units.stmt_start_chunks node.chunks)
      node.chunks.length) ([], 0) (Nat.zero_le _)
    (by simp [units.stmtsChildren, units.unitChildren])
  exact ⟨_, h1, h2⟩

/-- C9: sequential node consumption. Statement reconstruction is a
deterministic function, and the nested-group nodes attached to the
produced statements (in statement and unit order) are exactly a
left-to-right contiguous prefix of the original child-node list, so
nodes are consumed strictly in encounter order; a consuming unit with a
node available takes exactly that one node and advances the cursor by
one, while a consuming unit facing an exhausted cursor is left with an
empty child and the cursor unchanged — no error. -/
theorem C9_node_consumption :
    (∀ (node : units.Node), ∃ m, m ≤ node.children.length ∧
       units.stmtsChildren (units.parse_chunks_to_statements node) =
         node.children.take m) ∧
    (∀ (children : List units.Node) (ci : Nat) (c : units.Node),
       children.get? ci = some c →
       units.take_child children ci = (some c, ci + 1)) ∧
    (∀ (children : List units.Node) (ci : Nat),
       children.length ≤ ci →
       units.take_child children ci = (none, ci)) := by
  refine ⟨pcs_children, ?_, ?_⟩
  · intro children ci c h
    unfold units.take_child
    rw [h]
  · intro children ci h
    unfold units.take_child
    rw [List.get?_eq_getElem?, List.getElem?_eq_none h]

/-- Witness for C9 at a concrete two-statement document with one nested
group: the first conjunct at that node, the second at a singleton child
list with an available node, the third at an exhausted child list. -/
theorem C9_node_consumption_witness :
    (∃ m, m ≤ (units.Node.mk [["@", "%", "Rect"]]
        [units.Node.mk [["1", "2"]] []]).children.length ∧
      units.stmtsChildren (units.parse_chunks_to_statements
          (units.Node.mk [["@", "%", "Rect"]]
            [units.Node.mk [["1", "2"]] []])) =
        (units.Node.mk [["@", "%", "Rect"]]
          [units.Node.mk [["1", "2"]] []]).children.take m) ∧
    ([units.Node.mk [["9"]] []].get? 0 =
      some (units.Node.mk [["9"]] [])) ∧
    units.take_child [units.Node.mk [["9"]] []] 0 =
      (some (units.Node.mk [["9"]] []), 1) ∧
    ([] : List units.Node).length ≤ 0 ∧
    units.take_child ([] : List units.Node) 0 = (none, 0) :=
  ⟨C9_node_consumption.1 _, rfl,
    C9_node_consumption.2.1 [units.Node.mk [["9"]] []] 0
      (units.Node.mk [["9"]] []) rfl,
    Nat.le_refl 0,
    C9_node_consumption.2.2 ([] : List units.Node) 0 (Nat.le_refl 0)⟩

/-- Counterexample to C7 as stated: the fragment `junk` (one chunk with
no sigils) parses to a single non-definition statement, yet merging it
appends no result and leaves last-result `none`; so last-result can be
`none` after a merge that did not contain only definitions. -/
theorem C7_counterexample :
    units.parse_chunks_to_statements (units.Node.mk [["junk"]] []) =
      [⟨[], false⟩] ∧
    (⟨[], false⟩ : units.Statement).is_define = false ∧
    document.merge document.Document.init (units.Node.mk [["junk"]] []) =
      Except.ok ⟨environment.Environment.init, [], none⟩ :=
  ⟨rfl, rfl, rfl⟩

theorem pass2_defines : ∀ (stmts : List units.Statement),
    (∀ s ∈ stmts, s.is_define = true) →
    ∀ (env : environment.Environment) (res : List model.Value),
    ∃ env2, stmts.foldlM
        (fun (acc : environment.Environment × List model.Value) stmt =>
          if stmt.is_define then do
            let env2 ← evaluator.eval_definition acc.1 stmt
            pure (env2, acc.2)
          else do
            let v ← evaluator.eval_statement acc.1 stmt
            match v with
            | some val => pure (acc.1, acc.2 ++ [val])
            | none => pure acc)
        (env, res) = Except.ok (env2, res) := by
  intro stmts
  induction stmts with
  | nil => intro _ env res; exact ⟨env, rfl⟩
  | cons s ss ih =>
    intro h env res
    rw [List.foldlM_cons]
    have hs : s.is_define = true := h s (by simp)
    rw [if_pos hs]
    obtain ⟨e2, he2⟩ := evaluator.eval_definition_ok env s
    rw [he2, M_bind_ok, M_pure_eq, M_bind_ok]
    exact ih (fun s2 hm => h s2 (by simp [hm])) e2 res

/-- C7 (amended): incremental merge protocol. Each merge appends the new
fragment's expression results to the cumulative result sequence and
records the last appended result; after a merge, last-result is `none`
exactly when that merge appended no results (not: contained only
definitions — see the counterexample); a fragment containing only
definitions does append no results; definitions overwrite any prior
entry of the same name in the scope tables; and reset returns the
Document to its initial empty state. -/
theorem C7_merge_protocol :
    (∀ (doc : document.Document) (root : units.Node)
       (env2 : environment.Environment) (new : List model.Value),
       document.evaluate_into doc.environment root = Except.ok (env2, new) →
       document.merge doc root =
         Except.ok ⟨env2, doc.results ++ new, new.getLast?⟩) ∧
    (∀ (doc : document.Document) (root : units.Node)
       (env2 : environment.Environment) (new : List model.Value)
       (doc2 : document.Document),
       document.evaluate_into doc.environment root = Except.ok (env2, new) →
       document.merge doc root = Except.ok doc2 →
       (doc2.last_result = none ↔ new = []) ∧
       (new ≠ [] → doc2.last_result = new.getLast?)) ∧
    (∀ (root : units.Node) (env : environment.Environment),
       (∀ s ∈ units.parse_chunks_to_statements root, s.is_define = true) →
       ∃ env2, document.evaluate_into env root = Except.ok (env2, [])) ∧
    (∀ (env : environment.Environment) (n : String) (v : model.Value),
       (environment.set_global env n v).globals_.lookup n = some v ∧
       (environment.set_local env n v).locals_.lookup n = some v) ∧
    (∀ (env : environment.Environment) (td : model.TypeDef),
       (environment.register_typedef env td).typedefs.lookup td.name =
         some td) ∧
    (∀ (doc : document.Document), repl.reset doc = document.Document.init) ∧
    document.Document.init =
      ⟨environment.Environment.init, [], none⟩ := by
  refine ⟨?_, ?_, ?_, ?_, ?_, fun doc => rfl, rfl⟩
  · intro doc root env2 new h
    unfold document.merge
    rw [h, M_bind_ok]
    rfl
  · intro doc root env2 new doc2 h hm
    unfold document.merge at hm
    rw [h, M_bind_ok, M_pure_eq] at hm
    have hdoc2 : doc2 = ⟨env2, doc.results ++ new, new.getLast?⟩ :=
      (Except.ok.inj hm).symm
    subst hdoc2
    dsimp only
    constructor
    · cases new <;> simp
    · intro _
      rfl
  · intro root env hdef
    unfold document.evaluate_into
    dsimp only
    obtain ⟨e1, he1⟩ :=
      evaluator.pass1_ok (units.parse_chunks_to_statements root) env
    rw [he1, M_bind_ok]
    unfold evaluator.pass2
    exact pass2_defines (units.parse_chunks_to_statements root) hdef e1 []
  · intro env n v
    exact ⟨lookup_dictSet_self _ _ _, lookup_dictSet_self _ _ _⟩
  · intro env td
    exact lookup_dictSet_self _ _ _

/-- Witness for C7: the hypotheses of the amended theorem hold at the
concrete fragments `junk` (no definitions, no results) and `@ # x` (a
single definition statement). -/
theorem C7_merge_protocol_witness :
    (document.evaluate_into document.Document.init.environment
        (units.Node.mk [["junk"]] []) =
      Except.ok (environment.Environment.init, ([] : List model.Value))) ∧
    (document.merge document.Document.init (units.Node.mk [["junk"]] []) =
      Except.ok ⟨environment.Environment.init,
        document.Document.init.results ++ [],
        ([] : List model.Value).getLast?⟩) ∧
    (∀ s ∈ units.parse_chunks_to_statements
        (units.Node.mk [["@", "#", "x"]] []), s.is_define = true) ∧
    (∃ env2, document.evaluate_into environment.Environment.init
        (units.Node.mk [["@", "#", "x"]] []) = Except.ok (env2, [])) ∧
    (((⟨environment.Environment.init, [], none⟩ :
          document.Document).last_result = none ↔
        ([] : List model.Value) = []) ∧
      (([] : List model.Value) ≠ [] →
        (⟨environment.Environment.init, [], none⟩ :
            document.Document).last_result =
          ([] : List model.Value).getLast?)) ∧
    ((environment.set_global environment.Environment.init "a"
        model.Value.Empty).globals_.lookup "a" = some model.Value.Empty ∧
      (environment.set_local environment.Environment.init "a"
        model.Value.Empty).locals_.lookup "a" = some model.Value.Empty) ∧
    ((environment.register_typedef environment.Environment.init
        ⟨"T", ["p"], [model.Kind.Text]⟩).typedefs.lookup "T" =
      some ⟨"T", ["p"], [model.Kind.Text]⟩) ∧
    repl.reset document.Document.init = document.Document.init := by
  have hall : ∀ s ∈ units.parse_chunks_to_statements
      (units.Node.mk [["@", "#", "x"]] []), s.is_define = true := by
    intro s hs
    have he : units.parse_chunks_to_statements
        (units.Node.mk [["@", "#", "x"]] []) =
      [⟨[⟨⟨units.LeaderType.GlobalRef⟩, some "x", none⟩], true⟩] := rfl
    rw [he] at hs
    simp at hs
    subst hs
    rfl
  refine ⟨rfl, ?_, hall, ?_, ?_, ?_, ?_, ?_⟩
  · exact C7_merge_protocol.1 document.Document.init
      (units.Node.mk [["junk"]] []) environment.Environment.init [] rfl
  · exact C7_merge_protocol.2.2.1 (units.Node.mk [["@", "#", "x"]] [])
      environment.Environment.init hall
  · exact C7_merge_protocol.2.1 document.Document.init
      (units.Node.mk [["junk"]] []) environment.Environment.init []
      ⟨environment.Environment.init, [], none⟩ rfl rfl
  · exact C7_merge_protocol.2.2.2.1 environment.Environment.init "a"
      model.Value.Empty
  · exact C7_merge_protocol.2.2.2.2.1 environment.Environment.init
      ⟨"T", ["p"], [model.Kind.Text]⟩
  · exact C7_merge_protocol.2.2.2.2.2.1 document.Document.init
